import Mathlib

/-!
Verification of the schedule codec, display parsing and sensor transforms of
the vaillant_plus integration (custom_components/vaillant_plus/text.py and
sensor.py).  Strings are modelled as lists of characters; Python integers as
Lean `Int`; Python floats as exact rationals.  Python `int(s, base)` is
modelled including its tolerance for surrounding whitespace, a leading sign,
a `0x`/`0X` prefix (base 16 only) and underscores between digits; only the
ASCII whitespace characters and ASCII digits are modelled.
-/

/-- Characters stripped by Python `str.strip()` (ASCII subset). -/
def pyWs (c : Char) : Bool :=
  c = ' ' || c = '\t' || c = '\n' || c = '\r' || c = '\x0B' || c = '\x0C'

/-- Remove leading whitespace. -/
def trimLeft (cs : List Char) : List Char := cs.dropWhile pyWs

/-- Remove trailing whitespace. -/
def trimRight (cs : List Char) : List Char := (cs.reverse.dropWhile pyWs).reverse

/-- Python `str.strip()`. -/
def pyStrip (cs : List Char) : List Char := trimRight (trimLeft cs)

/-- Value of a base-16 digit character, if any (case-insensitive). -/
def hexVal? (c : Char) : Option Nat :=
  if '0' ≤ c ∧ c ≤ '9' then some (c.toNat - '0'.toNat)
  else if 'a' ≤ c ∧ c ≤ 'f' then some (c.toNat - 'a'.toNat + 10)
  else if 'A' ≤ c ∧ c ≤ 'F' then some (c.toNat - 'A'.toNat + 10)
  else none

/-- Value of a base-10 digit character, if any. -/
def decVal? (c : Char) : Option Nat :=
  if '0' ≤ c ∧ c ≤ '9' then some (c.toNat - '0'.toNat) else none

/-- Continuation of Python digit-sequence parsing: after at least one digit,
further digits may be separated by single underscores. -/
def digitsTail (v : Char → Option Nat) (base : Nat) : Nat → List Char → Option Nat
  | acc, [] => some acc
  | acc, c :: rest =>
    if c = '_' then
      match rest with
      | [] => none
      | c2 :: rest2 =>
        match v c2 with
        | some d => digitsTail v base (base * acc + d) rest2
        | none => none
    else
      match v c with
      | some d => digitsTail v base (base * acc + d) rest
      | none => none

/-- Python digit-sequence parsing: a non-empty digit string with optional
single underscores between digits. -/
def digitsParse (v : Char → Option Nat) (base : Nat) : List Char → Option Nat
  | [] => none
  | c :: rest =>
    match v c with
    | some d => digitsTail v base d rest
    | none => none

/-- After a `0x` prefix Python permits one optional underscore before the
digits. -/
def hexAfterPrefix : List Char → Option Nat
  | [] => none
  | c :: rest =>
    if c = '_' then digitsParse hexVal? 16 rest
    else digitsParse hexVal? 16 (c :: rest)

/-- Unsigned part of Python `int(s, 16)`: an optional `0x`/`0X` prefix then
hex digits. -/
def hexBody : List Char → Option Nat
  | c0 :: c1 :: rest =>
    if c0 = '0' ∧ (c1 = 'x' ∨ c1 = 'X') then hexAfterPrefix rest
    else digitsParse hexVal? 16 (c0 :: c1 :: rest)
  | l => digitsParse hexVal? 16 l

/-- Python `int(s, 16)`: strip whitespace, optional sign, hex body. -/
def pyIntHex (cs : List Char) : Option Int :=
  let t := pyStrip cs
  if t.head? = some '+' then (hexBody t.tail).map (fun n => (n : Int))
  else if t.head? = some '-' then (hexBody t.tail).map (fun n => -(n : Int))
  else (hexBody t).map (fun n => (n : Int))

/-- Python `int(s)` (base 10): strip whitespace, optional sign, digits. -/
def pyIntDec (cs : List Char) : Option Int :=
  let t := pyStrip cs
  if t.head? = some '+' then (digitsParse decVal? 10 t.tail).map (fun n => (n : Int))
  else if t.head? = some '-' then (digitsParse decVal? 10 t.tail).map (fun n => -(n : Int))
  else (digitsParse decVal? 10 t).map (fun n => (n : Int))

/-- Decimal digit character for a value below 10. -/
def decChar : Nat → Char
  | 0 => '0' | 1 => '1' | 2 => '2' | 3 => '3' | 4 => '4'
  | 5 => '5' | 6 => '6' | 7 => '7' | 8 => '8' | 9 => '9'
  | _ => '*'

/-- Uppercase hexadecimal digit character for a value below 16. -/
def hexCharU : Nat → Char
  | 0 => '0' | 1 => '1' | 2 => '2' | 3 => '3' | 4 => '4'
  | 5 => '5' | 6 => '6' | 7 => '7' | 8 => '8' | 9 => '9'
  | 10 => 'A' | 11 => 'B' | 12 => 'C' | 13 => 'D' | 14 => 'E' | 15 => 'F'
  | _ => '*'

/-- Fuel-driven decimal digit expansion (most significant digit first). -/
def natDecCore : Nat → Nat → List Char → List Char
  | 0, _, ds => ds
  | fuel + 1, n, ds =>
    if n < 10 then decChar n :: ds
    else natDecCore fuel (n / 10) (decChar (n % 10) :: ds)

/-- Decimal digits of a natural number, no padding. -/
def natDec (n : Nat) : List Char := natDecCore (n + 1) n []

/-- Python format spec `{:02d}` on an integer: decimal representation padded
with zeros on the left to width 2, the sign counting toward the width. -/
def fmt02d (n : Int) : List Char :=
  if n < 0 then '-' :: natDec n.natAbs
  else if (natDec n.toNat).length < 2 then '0' :: natDec n.toNat
  else natDec n.toNat

/-- Python format spec `{:02X}` on a natural number below 256 (every call
site first clamps its argument to at most 59). -/
def fmt02X (n : Nat) : List Char :=
  if n < 16 then ['0', hexCharU n]
  else [hexCharU (n / 16), hexCharU (n % 16)]

/-- One schedule slot: start hour, start minute, end hour, end minute. -/
abbrev Slot := Int × Int × Int × Int

/-- Source clamp `max(0, min(23, int(sh)))` for hours. -/
def clampH (x : Int) : Nat := (max 0 (min 23 x)).toNat

/-- Source clamp `max(0, min(59, int(sm)))` for minutes. -/
def clampM (x : Int) : Nat := (max 0 (min 59 x)).toNat

/-- One encoded 8-character group `f"{sh:02X}{sm:02X}{eh:02X}{em:02X}"` after
clamping (text.py lines 45-51). -/
def encodeGroup (s : Slot) : List Char :=
  fmt02X (clampH s.1) ++ fmt02X (clampM s.2.1) ++ fmt02X (clampH s.2.2.1) ++ fmt02X (clampM s.2.2.2)

/-- The unused-slot group. -/
def sentinel : List Char := ['0', '0', '0', '0', '0', '0', '0', '0']

/-- The loop `for i in range(3)` of `encode_timeslots_from_list`: one group
per position, the sentinel once the slot list is exhausted. -/
def encodeGroups : Nat → List Slot → List (List Char)
  | 0, _ => []
  | k + 1, [] => sentinel :: encodeGroups k []
  | k + 1, s :: rest => encodeGroup s :: encodeGroups k rest

/-- text.py `encode_timeslots_from_list` (lines 37-54). -/
def encode_timeslots_from_list (slots : List Slot) : List Char :=
  (encodeGroups 3 slots).flatten

/-- The f-string `f"{sh:02d}:{sm:02d}-{eh:02d}:{em:02d}"` used both by the
decode path (text.py line 117) and the optimistic update (line 169). -/
def fmtSlot (s : Slot) : List Char :=
  fmt02d s.1 ++ (':' :: (fmt02d s.2.1 ++ ('-' :: (fmt02d s.2.2.1 ++ (':' :: fmt02d s.2.2.2)))))

/-- Python `", ".join`. -/
def joinComma : List (List Char) → List Char
  | [] => []
  | [x] => x
  | x :: xs => x ++ (',' :: ' ' :: joinComma xs)

/-- The slices `[val[i:i+8] for i in range(0, 24, 8)]` (text.py line 107). -/
def wireGroups (cs : List Char) : List (List Char) :=
  [cs.take 8, (cs.drop 8).take 8, (cs.drop 16).take 8]

/-- Decode of one 8-character group (text.py lines 110-120): skip the
sentinel; parse the four 2-character fields with `int(_, 16)`; any parse
failure is caught and the group skipped. -/
def decodeGroup (g : List Char) : Option (List Char) :=
  if g = sentinel then none
  else
    match pyIntHex (g.take 2), pyIntHex ((g.drop 2).take 2),
          pyIntHex ((g.drop 4).take 2), pyIntHex ((g.drop 6).take 2) with
    | some sh, some sm, some eh, some em => some (fmtSlot (sh, sm, eh, em))
    | _, _, _, _ => none

/-- The wire-to-display conversion of a 24-character value (text.py lines
107-121): `", ".join(formatted_times) if formatted_times else "0"`. -/
def decodeWire (cs : List Char) : List Char :=
  match (wireGroups cs).filterMap decodeGroup with
  | [] => ['0']
  | fs => joinComma fs

/-- A raw device-attribute value as seen by the text entity. -/
inductive PyObj where
  | ostr (cs : List Char)
  | onone
  | oother
deriving DecidableEq

/-- text.py `VaillantTimeTextEntity.update_from_latest_data` (lines 102-126):
returns the pair (native value, availability flag). -/
def text_update_from_latest_data (v : PyObj) : Option (List Char) × Bool :=
  match v with
  | .ostr cs => if cs.length = 24 then (some (decodeWire cs), true) else (none, false)
  | _ => (none, false)

/-- Python `s.split(",")` for a single-character separator. -/
def splitOnComma : List Char → List (List Char)
  | [] => [[]]
  | c :: rest =>
    if c = ',' then [] :: splitOnComma rest
    else
      match splitOnComma rest with
      | r :: rs => (c :: r) :: rs
      | [] => [[c]]

/-- Python `s.split(sep, 1)` under the assumption that `sep` occurs in `s`
(the source checks membership first); returns the two halves. -/
def splitFirst (sep : Char) : List Char → List Char × List Char
  | [] => ([], [])
  | c :: rest =>
    if c = sep then ([], rest)
    else
      let p := splitFirst sep rest
      (c :: p.1, p.2)

/-- ASCII lower-casing, modelling Python `str.lower()` on ASCII data. -/
def lowerChar (c : Char) : Char :=
  if 'A' ≤ c ∧ c ≤ 'Z' then Char.ofNat (c.toNat + 32) else c

/-- Python `str.lower()` over a character list. -/
def asciiLower (cs : List Char) : List Char := cs.map lowerChar

/-- Message of `ValueError(f"invalid timeslot (missing -): {p}")`; the source
wraps the dash in single quotes, elided here. -/
def msgDash (p : List Char) : List Char :=
  "invalid timeslot (missing -): ".toList ++ p

/-- Message of `ValueError(f"invalid time format (missing :): {p}")`; the
source wraps the colon in single quotes, elided here. -/
def msgColon (p : List Char) : List Char :=
  "invalid time format (missing :): ".toList ++ p

/-- Message of `ValueError(f"time values out of range: {p}")`. -/
def msgRange (p : List Char) : List Char :=
  "time values out of range: ".toList ++ p

/-- Message of the `ValueError` raised by CPython `int()` on a bad literal;
CPython wraps the literal in single quotes, elided here. -/
def msgIntLit (lit : List Char) : List Char :=
  "invalid literal for int() with base 10: ".toList ++ lit

/-- Parse of one comma-separated segment (text.py lines 70-84); the checks
run in source order and the first failure is raised. -/
def parseSegment (p : List Char) : Except (List Char) Slot :=
  if ('-' ∈ p) then
    if (':' ∈ (splitFirst '-' p).1) ∧ (':' ∈ (splitFirst '-' p).2) then
      match pyIntDec (splitFirst ':' (splitFirst '-' p).1).1 with
      | none => .error (msgIntLit (splitFirst ':' (splitFirst '-' p).1).1)
      | some sh =>
        match pyIntDec (splitFirst ':' (splitFirst '-' p).1).2 with
        | none => .error (msgIntLit (splitFirst ':' (splitFirst '-' p).1).2)
        | some sm =>
          match pyIntDec (splitFirst ':' (splitFirst '-' p).2).1 with
          | none => .error (msgIntLit (splitFirst ':' (splitFirst '-' p).2).1)
          | some eh =>
            match pyIntDec (splitFirst ':' (splitFirst '-' p).2).2 with
            | none => .error (msgIntLit (splitFirst ':' (splitFirst '-' p).2).2)
            | some em =>
              if 0 ≤ sh ∧ sh ≤ 23 ∧ 0 ≤ eh ∧ eh ≤ 23 ∧ 0 ≤ sm ∧ sm ≤ 59 ∧ 0 ≤ em ∧ em ≤ 59 then
                .ok (sh, sm, eh, em)
              else .error (msgRange p)
    else .error (msgColon p)
  else .error (msgDash p)

/-- The accumulation loop `for p in parts[:3]` with early raise. -/
def parseSegList : List (List Char) → Except (List Char) (List Slot)
  | [] => .ok []
  | p :: rest =>
    match parseSegment p with
    | .error e => .error e
    | .ok s =>
      match parseSegList rest with
      | .error e => .error e
      | .ok l => .ok (s :: l)

/-- The comprehension `[p.strip() for p in s.split(",") if p.strip()]`. -/
def normSegsRaw (s : List Char) : List (List Char) :=
  ((splitOnComma s).map pyStrip).filter (fun p => !p.isEmpty)

/-- The clear-schedule test of text.py lines 64-66: after stripping, the
empty string, `"0"`, or case-insensitively `"none"`/`"null"`. -/
def clearDisplay (d : List Char) : Prop :=
  pyStrip d = [] ∨ pyStrip d = ['0'] ∨
  asciiLower (pyStrip d) = "none".toList ∨ asciiLower (pyStrip d) = "null".toList

instance (d : List Char) : Decidable (clearDisplay d) := by
  unfold clearDisplay; infer_instance

/-- text.py `parse_display_string_to_slots` (lines 57-85); `none` models the
Python `None` argument. -/
def parse_display_string_to_slots (display : Option (List Char)) :
    Except (List Char) (List Slot) :=
  match display with
  | none => .ok []
  | some d =>
    if clearDisplay d then .ok []
    else parseSegList ((normSegsRaw (pyStrip d)).take 3)

/-- Locally cached entity state touched by `async_set_value`. -/
structure TextState where
  native_value : Option (List Char)
  available : Bool
deriving DecidableEq

/-- Outcome of the awaited `control_device` call: an explicit `False`, a
truthy value, `None`, or a raised exception (caught, treated as `None`). -/
inductive CtrlResp where
  | rfalse | rtrue | rnone | rexn
deriving DecidableEq

/-- The display string written back on optimistic update (text.py lines
168-171). -/
def formatSlots (slots : List Slot) : List Char :=
  if slots = [] then ['0'] else joinComma (slots.map fmtSlot)

/-- text.py `VaillantTimeTextEntity.async_set_value` (lines 128-175) as a
state transition; the second component is the hex string handed to
`control_device`, `none` when no call is made. -/
def async_set_value (st : TextState) (value : Option (List Char)) (resp : CtrlResp) :
    TextState × Option (List Char) :=
  match value with
  | none => (st, none)
  | some v =>
    let display := pyStrip v
    let slotsE :=
      if display = ['0'] ∨ display = [] then Except.ok ([] : List Slot)
      else parse_display_string_to_slots (some display)
    match slotsE with
    | .error _ => (st, none)
    | .ok slots =>
      let hexstr := encode_timeslots_from_list slots
      match resp with
      | .rfalse => (st, some hexstr)
      | _ => ({ native_value := some (formatSlots slots), available := true }, some hexstr)

/-- A raw device-attribute value as seen by the sensor entity. -/
inductive SVal where
  | snone
  | snum (q : ℚ)
  | sstr (cs : List Char)
deriving DecidableEq

/-- Python exception classes raised by the sensor transforms. -/
inductive PyErr where
  | typeErr | valueErr
deriving DecidableEq

/-- Truthiness of `value is not None`. -/
def svalPresent : SVal → Bool
  | .snone => false
  | _ => true

/-- The tank-temperature transform of sensor.py lines 363-364: when the key
is `Tank_temperature` and the value is present, `(value - 32) * 5 / 9`; a
string value raises a `TypeError` from the subtraction. -/
def sensor_step1 (key : String) (raw : SVal) : Except PyErr SVal :=
  if key = "Tank_temperature" ∧ raw ≠ SVal.snone then
    match raw with
    | .snum q => .ok (.snum ((q - 32) * 5 / 9))
    | .sstr _ => .error .typeErr
    | .snone => .ok raw
  else .ok raw

/-- The water-pressure transform of sensor.py lines 367-368: when the key is
`reserved_data1` and the value is present, `int(value, 16) / 10.0`; a bad
hex string raises a `ValueError`, a numeric value a `TypeError`. -/
def sensor_step2 (key : String) (v1 : SVal) : Except PyErr SVal :=
  if key = "reserved_data1" ∧ v1 ≠ SVal.snone then
    match v1 with
    | .sstr cs =>
      match pyIntHex cs with
      | some n => .ok (.snum ((n : ℚ) / 10))
      | none => .error .valueErr
    | .snum _ => .error .typeErr
    | .snone => .ok v1
  else .ok v1

/-- sensor.py `VaillantSensorEntity.update_from_latest_data` (lines 357-407):
the two keyed transforms, then `(native value, availability)`; an uncaught
Python exception is modelled as `Except.error`. -/
def sensor_update_from_latest_data (key : String) (raw : SVal) :
    Except PyErr (SVal × Bool) :=
  match sensor_step1 key raw with
  | .error e => .error e
  | .ok v1 =>
    match sensor_step2 key v1 with
    | .error e => .error e
    | .ok v2 => .ok (v2, svalPresent v2)

/-- Range invariant of a slot (spec section 3). -/
def validSlot (s : Slot) : Prop :=
  0 ≤ s.1 ∧ s.1 ≤ 23 ∧ 0 ≤ s.2.1 ∧ s.2.1 ≤ 59 ∧
  0 ≤ s.2.2.1 ∧ s.2.2.1 ≤ 23 ∧ 0 ≤ s.2.2.2 ∧ s.2.2.2 ≤ 59

instance (s : Slot) : Decidable (validSlot s) := by
  unfold validSlot; infer_instance

/-- Value of two hex digit characters read big-endian. -/
def hexPairNat (c1 c2 : Char) : Nat :=
  16 * ((hexVal? c1).getD 0) + ((hexVal? c2).getD 0)

/-- Modelled from the spec (section 4.1 Decode): decode of one group per the
specification text; for comparison with `decodeGroup`. -/
def decodeGroupSpec (g : List Char) : Option (List Char) :=
  if g = sentinel then none
  else
    some (fmtSlot ((hexPairNat (g.getD 0 ' ') (g.getD 1 ' ') : Int),
                   (hexPairNat (g.getD 2 ' ') (g.getD 3 ' ') : Int),
                   (hexPairNat (g.getD 4 ' ') (g.getD 5 ' ') : Int),
                   (hexPairNat (g.getD 6 ' ') (g.getD 7 ' ') : Int)))

/-- Modelled from the spec (section 4.1 Decode): the full decode algorithm as
described in the specification; for comparison with `decodeWire`. -/
def decodeWireSpec (cs : List Char) : List Char :=
  match (wireGroups cs).filterMap decodeGroupSpec with
  | [] => ['0']
  | fs => joinComma fs

/-- The defects listed by the specification for one display segment: missing
dash, a side without a colon, non-numeric hour or minute content, or an hour
or minute out of range. -/
def segmentFlaw (p : List Char) : Prop :=
  ('-' ∉ p) ∨ (':' ∉ (splitFirst '-' p).1) ∨ (':' ∉ (splitFirst '-' p).2) ∨
  pyIntDec (splitFirst ':' (splitFirst '-' p).1).1 = none ∨
  pyIntDec (splitFirst ':' (splitFirst '-' p).1).2 = none ∨
  pyIntDec (splitFirst ':' (splitFirst '-' p).2).1 = none ∨
  pyIntDec (splitFirst ':' (splitFirst '-' p).2).2 = none ∨
  (∃ sh sm eh em : Int,
    pyIntDec (splitFirst ':' (splitFirst '-' p).1).1 = some sh ∧
    pyIntDec (splitFirst ':' (splitFirst '-' p).1).2 = some sm ∧
    pyIntDec (splitFirst ':' (splitFirst '-' p).2).1 = some eh ∧
    pyIntDec (splitFirst ':' (splitFirst '-' p).2).2 = some em ∧
    ¬(0 ≤ sh ∧ sh ≤ 23 ∧ 0 ≤ eh ∧ eh ≤ 23 ∧ 0 ≤ sm ∧ sm ≤ 59 ∧ 0 ≤ em ∧ em ≤ 59))

/-- Failure of the `int(_, 16)` conversion on at least one of the four
2-character sub-fields of an 8-character group. -/
def groupConvFails (g : List Char) : Prop :=
  pyIntHex (g.take 2) = none ∨ pyIntHex ((g.drop 2).take 2) = none ∨
  pyIntHex ((g.drop 4).take 2) = none ∨ pyIntHex ((g.drop 6).take 2) = none

instance (g : List Char) : Decidable (groupConvFails g) := by
  unfold groupConvFails; infer_instance

/-! Helper lemmas: character classes and digit rendering. -/

theorem decChar_spec : ∀ d : Nat, d < 10 →
    decVal? (decChar d) = some d ∧ pyWs (decChar d) = false ∧
    decChar d ≠ ',' ∧ decChar d ≠ '-' ∧ decChar d ≠ ':' ∧
    decChar d ≠ '_' ∧ decChar d ≠ '+' := by decide

theorem hexCharU_spec : ∀ d : Nat, d < 16 →
    hexVal? (hexCharU d) = some d ∧ pyWs (hexCharU d) = false ∧
    hexCharU d ≠ '_' ∧ hexCharU d ≠ '+' ∧ hexCharU d ≠ '-' ∧
    hexCharU d ≠ 'x' ∧ hexCharU d ≠ 'X' := by decide

theorem pyWs_ne_comma {c : Char} (h : pyWs c = true) : c ≠ ',' := by
  intro hc; subst hc; simp [pyWs] at h

theorem hexVal?_not_ws {c : Char} {v : Nat} (h : hexVal? c = some v) : pyWs c = false := by
  by_contra hw
  have hw' : pyWs c = true := by
    cases hpw : pyWs c with
    | false => exact absurd hpw hw
    | true => rfl
  simp only [pyWs, Bool.or_eq_true, decide_eq_true_eq] at hw'
  rcases hw' with ((((h1 | h1) | h1) | h1) | h1) | h1 <;> subst h1 <;> simp [hexVal?] at h

theorem natDec_lt10 {n : Nat} (h : n < 10) : natDec n = [decChar n] := by
  simp [natDec, natDecCore, h]

theorem natDec_lt100 {n : Nat} (h1 : 10 ≤ n) (h2 : n < 100) :
    natDec n = [decChar (n / 10), decChar (n % 10)] := by
  obtain ⟨m, rfl⟩ : ∃ m, n = m + 1 := ⟨n - 1, by omega⟩
  have h3 : ¬ (m + 1 < 10) := by omega
  have h4 : (m + 1) / 10 < 10 := by omega
  simp [natDec, natDecCore, h3, h4]

theorem natDecCore_length_le : ∀ (fuel n : Nat) (ds : List Char),
    ds.length ≤ (natDecCore fuel n ds).length := by
  intro fuel
  induction fuel with
  | zero => intro n ds; simp [natDecCore]
  | succ k ih =>
    intro n ds
    by_cases h : n < 10
    · simp [natDecCore, h]
    · simp only [natDecCore, h, if_false]
      calc ds.length ≤ (decChar (n % 10) :: ds).length := by simp
        _ ≤ _ := ih (n / 10) (decChar (n % 10) :: ds)

theorem natDec_length_pos (n : Nat) : 1 ≤ (natDec n).length := by
  by_cases h : n < 10
  · simp [natDec_lt10 h]
  · unfold natDec natDecCore
    simp only [h, if_false]
    calc 1 ≤ (decChar (n % 10) :: ([] : List Char)).length := by simp
      _ ≤ _ := natDecCore_length_le n (n / 10) _

theorem fmt02d_length_ge (n : Int) : 2 ≤ (fmt02d n).length := by
  unfold fmt02d
  by_cases h : n < 0
  · simp only [h, if_true, List.length_cons]
    have := natDec_length_pos n.natAbs
    omega
  · simp only [h, if_false]
    by_cases h2 : (natDec n.toNat).length < 2
    · have := natDec_length_pos n.toNat
      simp only [h2, if_true, List.length_cons]; omega
    · simp only [h2, if_false]; omega

theorem fmt02d_two {n : Int} (h0 : 0 ≤ n) (h99 : n ≤ 99) :
    fmt02d n = [decChar (n.toNat / 10), decChar (n.toNat % 10)] := by
  have hn : ¬ n < 0 := by omega
  by_cases h : n.toNat < 10
  · have hd : natDec n.toNat = [decChar n.toNat] := natDec_lt10 h
    have hdiv : n.toNat / 10 = 0 := by omega
    have hmod : n.toNat % 10 = n.toNat := by omega
    simp [fmt02d, hn, hd, hdiv, hmod, decChar]
  · have h1 : 10 ≤ n.toNat := by omega
    have h2 : n.toNat < 100 := by omega
    have hd := natDec_lt100 h1 h2
    simp [fmt02d, hn, hd]

theorem fmt02X_eq {n : Nat} (h : n < 256) :
    fmt02X n = [hexCharU (n / 16), hexCharU (n % 16)] := by
  unfold fmt02X
  by_cases h16 : n < 16
  · have hdiv : n / 16 = 0 := by omega
    have hmod : n % 16 = n := by omega
    simp [h16, hdiv, hmod, hexCharU]
  · simp [h16]

theorem fmt02X_length (n : Nat) : (fmt02X n).length = 2 := by
  unfold fmt02X; split <;> rfl

/-! Helper lemmas: stripping. -/

theorem dropWhile_eq_self_of_head {p : Char → Bool} {l : List Char}
    (h : ∀ c, l.head? = some c → p c = false) : l.dropWhile p = l := by
  cases l with
  | nil => rfl
  | cons a t => simp [List.dropWhile_cons, h a rfl]

theorem pyStrip_eq_self_of_boundary {l : List Char}
    (h1 : ∀ c, l.head? = some c → pyWs c = false)
    (h2 : ∀ c, l.getLast? = some c → pyWs c = false) : pyStrip l = l := by
  unfold pyStrip trimLeft trimRight
  rw [dropWhile_eq_self_of_head h1]
  rw [dropWhile_eq_self_of_head (by intro c hc; exact h2 c (by rwa [List.head?_reverse] at hc))]
  exact List.reverse_reverse l

theorem pyStrip_eq_self_of_all {l : List Char} (h : ∀ c ∈ l, pyWs c = false) :
    pyStrip l = l := by
  refine pyStrip_eq_self_of_boundary ?_ ?_
  · intro c hc; exact h c (by cases l with | nil => simp at hc | cons a t => simp at hc; simp [hc])
  · intro c hc
    have : c ∈ l := by
      have := List.mem_of_mem_head? (l := l.reverse) (a := c) (by rwa [List.head?_reverse])
      simpa using this
    exact h c this

theorem pyStrip_cons_ws {c : Char} {l : List Char} (h : pyWs c = true) :
    pyStrip (c :: l) = pyStrip l := by
  unfold pyStrip trimLeft
  rw [List.dropWhile_cons, if_pos h]

/-! Helper lemmas: evaluating the Python integer parsers. -/

theorem pyIntDec_two {d1 d2 : Nat} (h1 : d1 < 10) (h2 : d2 < 10) :
    pyIntDec [decChar d1, decChar d2] = some (((10 * d1 + d2 : Nat) : Int)) := by
  obtain ⟨v1, w1, _, hm1, _, _, hp1⟩ := decChar_spec d1 h1
  obtain ⟨v2, w2, _, _, _, u2, _⟩ := decChar_spec d2 h2
  have hs : pyStrip [decChar d1, decChar d2] = [decChar d1, decChar d2] := by
    apply pyStrip_eq_self_of_all
    intro c hc
    rcases List.mem_cons.mp hc with rfl | hc
    · exact w1
    rcases List.mem_cons.mp hc with rfl | hc
    · exact w2
    cases hc
  unfold pyIntDec
  simp only [hs, List.head?_cons, Option.some.injEq, hp1, hm1, if_false, List.tail_cons]
  simp only [digitsParse, v1, digitsTail, u2, if_false, v2]
  simp

theorem hexVal_ne_sign {c : Char} {v : Nat} (h : hexVal? c = some v) :
    c ≠ '+' ∧ c ≠ '-' ∧ c ≠ '_' ∧ c ≠ 'x' ∧ c ≠ 'X' := by
  refine ⟨?_, ?_, ?_, ?_, ?_⟩ <;> intro hc <;> subst hc <;> simp [hexVal?] at h

theorem pyIntHex_two {c1 c2 : Char} {v1 v2 : Nat}
    (h1 : hexVal? c1 = some v1) (h2 : hexVal? c2 = some v2) :
    pyIntHex [c1, c2] = some (((16 * v1 + v2 : Nat) : Int)) := by
  obtain ⟨hp1, hm1, hu1, _, _⟩ := hexVal_ne_sign h1
  obtain ⟨_, _, hu2, hx2, hX2⟩ := hexVal_ne_sign h2
  have hs : pyStrip [c1, c2] = [c1, c2] := by
    apply pyStrip_eq_self_of_all
    intro c hc
    rcases List.mem_cons.mp hc with rfl | hc
    · exact hexVal?_not_ws h1
    rcases List.mem_cons.mp hc with rfl | hc
    · exact hexVal?_not_ws h2
    cases hc
  have hcond : ¬ (c1 = '0' ∧ (c2 = 'x' ∨ c2 = 'X')) := by
    rintro ⟨_, hx | hx⟩
    · exact hx2 hx
    · exact hX2 hx
  unfold pyIntHex
  simp only [hs, List.head?_cons, Option.some.injEq, hp1, hm1, if_false, List.tail_cons]
  simp only [hexBody, hcond, if_false, digitsParse, h1, digitsTail, hu2, if_false, h2]
  simp

theorem pyIntHex_fmt02X {n : Nat} (h : n < 256) :
    pyIntHex (fmt02X n) = some ((n : Int)) := by
  rw [fmt02X_eq h]
  have hd : n / 16 < 16 := by omega
  have hm : n % 16 < 16 := by omega
  obtain ⟨hv1, _⟩ := hexCharU_spec (n / 16) hd
  obtain ⟨hv2, _⟩ := hexCharU_spec (n % 16) hm
  rw [pyIntHex_two hv1 hv2]
  congr 1
  omega

/-! Helper lemmas: splitting and joining. -/

theorem splitOnComma_ne_nil (l : List Char) : splitOnComma l ≠ [] := by
  induction l with
  | nil => simp [splitOnComma]
  | cons c rest ih =>
    by_cases hc : c = ','
    · simp [splitOnComma, hc]
    · obtain ⟨h, t, ht⟩ := List.exists_cons_of_ne_nil ih
      simp [splitOnComma, hc, ht]

theorem splitOnComma_cons_ne {c : Char} {l h : List Char} {t : List (List Char)}
    (hc : c ≠ ',') (hl : splitOnComma l = h :: t) :
    splitOnComma (c :: l) = (c :: h) :: t := by
  simp [splitOnComma, hc, hl]

theorem splitOnComma_no_comma {l : List Char} (h : ',' ∉ l) : splitOnComma l = [l] := by
  induction l with
  | nil => rfl
  | cons c rest ih =>
    have hc : c ≠ ',' := by intro e; exact h (by simp [e])
    have hr : ',' ∉ rest := fun m => h (List.mem_cons_of_mem _ m)
    rw [splitOnComma_cons_ne hc (ih hr)]

theorem splitOnComma_append_comma (a b : List Char) :
    splitOnComma (a ++ ',' :: b) = splitOnComma a ++ splitOnComma b := by
  induction a with
  | nil => simp [splitOnComma]
  | cons c a' ih =>
    by_cases hc : c = ','
    · subst hc
      simp only [List.cons_append]
      simp [splitOnComma, ih]
    · obtain ⟨h, t, ht⟩ := List.exists_cons_of_ne_nil (splitOnComma_ne_nil a')
      have h2 : splitOnComma (a' ++ ',' :: b) = h :: (t ++ splitOnComma b) := by
        rw [ih, ht]; simp
      rw [List.cons_append, splitOnComma_cons_ne hc h2, splitOnComma_cons_ne hc ht]
      simp

theorem splitOnComma_append_nc {w : List Char} (hw : ',' ∉ w) (x : List Char) :
    ∃ pre last, splitOnComma x = pre ++ [last] ∧
      splitOnComma (x ++ w) = pre ++ [last ++ w] := by
  induction x with
  | nil => exact ⟨[], [], rfl, by simp [splitOnComma_no_comma hw]⟩
  | cons c x' ih =>
    obtain ⟨pre, last, h1, h2⟩ := ih
    by_cases hc : c = ','
    · subst hc
      refine ⟨[] :: pre, last, ?_, ?_⟩
      · simp [splitOnComma, h1]
      · simp only [List.cons_append]
        simp [splitOnComma, h2]
    · cases pre with
      | nil =>
        simp only [List.nil_append] at h1 h2
        refine ⟨[], c :: last, ?_, ?_⟩
        · rw [splitOnComma_cons_ne hc h1]; simp
        · rw [List.cons_append, splitOnComma_cons_ne hc h2]; simp
      | cons p ps =>
        have h1' : splitOnComma x' = p :: (ps ++ [last]) := by simpa using h1
        have h2' : splitOnComma (x' ++ w) = p :: (ps ++ [last ++ w]) := by simpa using h2
        refine ⟨(c :: p) :: ps, last, ?_, ?_⟩
        · rw [splitOnComma_cons_ne hc h1']; simp
        · rw [List.cons_append, splitOnComma_cons_ne hc h2']; simp

theorem splitFirst_append {sep : Char} {a : List Char} (b : List Char) (h : sep ∉ a) :
    splitFirst sep (a ++ sep :: b) = (a, b) := by
  induction a with
  | nil => simp [splitFirst]
  | cons c a' ih =>
    have hc : c ≠ sep := by intro e; exact h (by simp [e])
    have ha : sep ∉ a' := fun m => h (List.mem_cons_of_mem _ m)
    simp [splitFirst, hc, ih ha]

theorem joinComma_cons_cons (x y : List Char) (ys : List (List Char)) :
    joinComma (x :: y :: ys) = x ++ (',' :: ' ' :: joinComma (y :: ys)) := rfl

theorem splitOnComma_joinComma : ∀ (xs : List (List Char)) (x : List Char),
    (∀ p ∈ x :: xs, ',' ∉ p) →
    splitOnComma (joinComma (x :: xs)) = x :: xs.map (fun p => ' ' :: p) := by
  intro xs
  induction xs with
  | nil =>
    intro x h
    simp [joinComma, splitOnComma_no_comma (h x (by simp))]
  | cons y ys ih =>
    intro x h
    rw [joinComma_cons_cons, splitOnComma_append_comma,
        splitOnComma_no_comma (h x (by simp))]
    have hy := ih y (fun p hp => h p (List.mem_cons_of_mem _ hp))
    rw [splitOnComma_cons_ne (by decide) hy]
    simp

/-! Helper lemmas: wire groups and encoding shape. -/

theorem sentinel_length : sentinel.length = 8 := rfl

theorem wireGroups_append3 {a b c : List Char}
    (ha : a.length = 8) (hb : b.length = 8) (hc : c.length = 8) :
    wireGroups (a ++ (b ++ c)) = [a, b, c] := by
  unfold wireGroups
  have h1 : (a ++ (b ++ c)).take 8 = a := by rw [← ha]; exact List.take_left ..
  have h2 : (a ++ (b ++ c)).drop 8 = b ++ c := by rw [← ha]; exact List.drop_left ..
  have h3 : (a ++ (b ++ c)).drop 16 = c := by
    rw [show a ++ (b ++ c) = (a ++ b) ++ c by simp,
        show (16 : Nat) = (a ++ b).length by simp [ha, hb]]
    exact List.drop_left ..
  have h4 : (b ++ c).take 8 = b := by rw [← hb]; exact List.take_left ..
  have h5 : c.take 8 = c := List.take_of_length_le (by omega)
  rw [h1, h2, h3, h4, h5]

theorem encodeGroup_length (s : Slot) : (encodeGroup s).length = 8 := by
  simp [encodeGroup, fmt02X_length]

theorem encode_eq_nil :
    encode_timeslots_from_list [] = sentinel ++ (sentinel ++ sentinel) := by
  simp [encode_timeslots_from_list, encodeGroups]

theorem encode_eq_one (a : Slot) :
    encode_timeslots_from_list [a] = encodeGroup a ++ (sentinel ++ sentinel) := by
  simp [encode_timeslots_from_list, encodeGroups]

theorem encode_eq_two (a b : Slot) :
    encode_timeslots_from_list [a, b] = encodeGroup a ++ (encodeGroup b ++ sentinel) := by
  simp [encode_timeslots_from_list, encodeGroups]

theorem encode_eq_three (a b c : Slot) (rest : List Slot) :
    encode_timeslots_from_list (a :: b :: c :: rest) =
      encodeGroup a ++ (encodeGroup b ++ encodeGroup c) := by
  simp [encode_timeslots_from_list, encodeGroups]

theorem encode_length (slots : List Slot) :
    (encode_timeslots_from_list slots).length = 24 := by
  match slots with
  | [] => simp [encode_eq_nil, sentinel_length]
  | [a] => simp [encode_eq_one, encodeGroup_length, sentinel_length]
  | [a, b] => simp [encode_eq_two, encodeGroup_length, sentinel_length]
  | a :: b :: c :: rest => simp [encode_eq_three, encodeGroup_length]

theorem decodeGroup_sentinel : decodeGroup sentinel = none := by
  simp [decodeGroup]

/-! Helper lemmas: stripping commutes with comma splitting. -/

theorem dropWhile_append_all {p : Char → Bool} {a : List Char} (b : List Char)
    (h : ∀ c ∈ a, p c = true) : (a ++ b).dropWhile p = b.dropWhile p := by
  induction a with
  | nil => rfl
  | cons c a' ih =>
    rw [List.cons_append, List.dropWhile_cons, if_pos (h c (by simp))]
    exact ih (fun c hc => h c (List.mem_cons_of_mem _ hc))

theorem trimRight_append_ws {x w : List Char} (hw : ∀ c ∈ w, pyWs c = true) :
    trimRight (x ++ w) = trimRight x := by
  unfold trimRight
  rw [List.reverse_append, dropWhile_append_all _ (fun c hc => hw c (by simpa using hc))]

theorem pyStrip_append_ws {l w : List Char} (hw : ∀ c ∈ w, pyWs c = true) :
    pyStrip (l ++ w) = pyStrip l := by
  unfold pyStrip trimLeft
  rw [List.dropWhile_append]
  by_cases he : (l.dropWhile pyWs).isEmpty
  · rw [if_pos he]
    have h1 : w.dropWhile pyWs = [] := List.dropWhile_eq_nil_iff.mpr hw
    have h2 : l.dropWhile pyWs = [] := by
      cases hd : l.dropWhile pyWs with
      | nil => rfl
      | cons a t => rw [hd] at he; simp [List.isEmpty] at he
    rw [h1, h2]
  · rw [if_neg he]
    exact trimRight_append_ws hw

theorem trimLeft_decomp (u : List Char) :
    ∃ w, u = w ++ trimLeft u ∧ ∀ c ∈ w, pyWs c = true :=
  ⟨u.takeWhile pyWs, (List.takeWhile_append_dropWhile ..).symm,
    fun _ hc => List.mem_takeWhile_imp hc⟩

theorem trimRight_decomp (u : List Char) :
    ∃ w, u = trimRight u ++ w ∧ ∀ c ∈ w, pyWs c = true := by
  refine ⟨(u.reverse.takeWhile pyWs).reverse, ?_, ?_⟩
  · have h2 := congrArg List.reverse (List.takeWhile_append_dropWhile pyWs u.reverse)
    rw [List.reverse_append, List.reverse_reverse] at h2
    unfold trimRight
    exact h2.symm
  · intro c hc
    exact List.mem_takeWhile_imp (by simpa using hc)

theorem strip_decomp (u : List Char) :
    ∃ p w, u = p ++ (pyStrip u ++ w) ∧
      (∀ c ∈ p, pyWs c = true) ∧ (∀ c ∈ w, pyWs c = true) := by
  obtain ⟨p, hp1, hp2⟩ := trimLeft_decomp u
  obtain ⟨w, hw1, hw2⟩ := trimRight_decomp (trimLeft u)
  exact ⟨p, w, by rw [show pyStrip u = trimRight (trimLeft u) from rfl, ← hw1, ← hp1], hp2, hw2⟩

theorem mapStrip_ws_left {p : List Char} (x : List Char)
    (hp : ∀ c ∈ p, pyWs c = true) :
    (splitOnComma (p ++ x)).map pyStrip = (splitOnComma x).map pyStrip := by
  induction p with
  | nil => rfl
  | cons c p' ih =>
    have hc : pyWs c = true := hp c (by simp)
    obtain ⟨h0, t0, ht⟩ := List.exists_cons_of_ne_nil (splitOnComma_ne_nil (p' ++ x))
    rw [List.cons_append, splitOnComma_cons_ne (pyWs_ne_comma hc) ht, List.map_cons,
        pyStrip_cons_ws hc, ← List.map_cons, ← ht]
    exact ih (fun c hc2 => hp c (List.mem_cons_of_mem _ hc2))

theorem mapStrip_ws_right {w : List Char} (x : List Char)
    (hw : ∀ c ∈ w, pyWs c = true) :
    (splitOnComma (x ++ w)).map pyStrip = (splitOnComma x).map pyStrip := by
  have hwc : ',' ∉ w := by
    intro m
    exact absurd rfl (pyWs_ne_comma (hw ',' m))
  obtain ⟨pre, last, h1, h2⟩ := splitOnComma_append_nc hwc x
  rw [h1, h2, List.map_append, List.map_append]
  simp [pyStrip_append_ws hw]

theorem mapStrip_strip (u : List Char) :
    (splitOnComma (pyStrip u)).map pyStrip = (splitOnComma u).map pyStrip := by
  obtain ⟨p, w, hu, hp, hw⟩ := strip_decomp u
  conv_rhs => rw [show (splitOnComma u).map pyStrip =
    (splitOnComma (p ++ (pyStrip u ++ w))).map pyStrip by rw [← hu]]
  rw [mapStrip_ws_left _ hp, mapStrip_ws_right _ hw]

theorem normSegs_strip (u : List Char) : normSegsRaw (pyStrip u) = normSegsRaw u := by
  unfold normSegsRaw
  rw [mapStrip_strip]

theorem normSegs_append_comma (s t : List Char) :
    normSegsRaw (s ++ ',' :: t) = normSegsRaw s ++ normSegsRaw t := by
  unfold normSegsRaw
  rw [splitOnComma_append_comma, List.map_append, List.filter_append]

theorem normSegs_no_comma_len {y : List Char} (h : ',' ∉ y) :
    (normSegsRaw y).length ≤ 1 := by
  unfold normSegsRaw
  rw [splitOnComma_no_comma h]
  exact le_trans (List.length_filter_le ..) (by simp)

theorem clearDisplay_segs_le_one {x : List Char} (h : clearDisplay x) :
    (normSegsRaw x).length ≤ 1 := by
  rw [← normSegs_strip x]
  rcases h with h | h | h | h
  · rw [h]; decide
  · rw [h]; decide
  · refine normSegs_no_comma_len ?_
    intro m
    have : lowerChar ',' ∈ asciiLower (pyStrip x) := List.mem_map_of_mem lowerChar m
    rw [h] at this
    revert this
    decide
  · refine normSegs_no_comma_len ?_
    intro m
    have : lowerChar ',' ∈ asciiLower (pyStrip x) := List.mem_map_of_mem lowerChar m
    rw [h] at this
    revert this
    decide

/-! Helper lemmas: canonical segment formatting and its re-parse. -/

theorem pyIntDec_fmt02d {n : Int} (h0 : 0 ≤ n) (h99 : n ≤ 99) :
    pyIntDec (fmt02d n) = some n := by
  have hd1 : n.toNat / 10 < 10 := by omega
  have hd2 : n.toNat % 10 < 10 := by omega
  rw [fmt02d_two h0 h99, pyIntDec_two hd1 hd2]
  congr 1
  have h : 10 * (n.toNat / 10) + n.toNat % 10 = n.toNat := by omega
  rw [h]
  omega

theorem fmt02d_chars {n : Int} (h0 : 0 ≤ n) (h99 : n ≤ 99) :
    ∀ c ∈ fmt02d n, pyWs c = false ∧ c ≠ ',' ∧ c ≠ '-' ∧ c ≠ ':' := by
  have hd1 : n.toNat / 10 < 10 := by omega
  have hd2 : n.toNat % 10 < 10 := by omega
  obtain ⟨_, w1, n1, m1, c1, _, _⟩ := decChar_spec _ hd1
  obtain ⟨_, w2, n2, m2, c2, _, _⟩ := decChar_spec _ hd2
  rw [fmt02d_two h0 h99]
  intro c hc
  rcases List.mem_cons.mp hc with rfl | hc
  · exact ⟨w1, n1, m1, c1⟩
  rcases List.mem_cons.mp hc with rfl | hc
  · exact ⟨w2, n2, m2, c2⟩
  cases hc

theorem fmt02d_length_two {n : Int} (h0 : 0 ≤ n) (h99 : n ≤ 99) :
    (fmt02d n).length = 2 := by
  rw [fmt02d_two h0 h99]; rfl

theorem fmtSlot_length {s : Slot} (h : validSlot s) : (fmtSlot s).length = 11 := by
  obtain ⟨a, b, c, d⟩ := s
  obtain ⟨ha0, ha23, hb0, hb59, hc0, hc23, hd0, hd59⟩ :
      0 ≤ a ∧ a ≤ 23 ∧ 0 ≤ b ∧ b ≤ 59 ∧ 0 ≤ c ∧ c ≤ 23 ∧ 0 ≤ d ∧ d ≤ 59 := h
  simp [fmtSlot, fmt02d_length_two ha0 (by omega), fmt02d_length_two hb0 (by omega),
        fmt02d_length_two hc0 (by omega), fmt02d_length_two hd0 (by omega)]

theorem fmtSlot_chars {s : Slot} (h : validSlot s) :
    ∀ c ∈ fmtSlot s, pyWs c = false ∧ c ≠ ',' := by
  obtain ⟨a, b, c0, d⟩ := s
  obtain ⟨ha0, ha23, hb0, hb59, hc0, hc23, hd0, hd59⟩ :
      0 ≤ a ∧ a ≤ 23 ∧ 0 ≤ b ∧ b ≤ 59 ∧ 0 ≤ c0 ∧ c0 ≤ 23 ∧ 0 ≤ d ∧ d ≤ 59 := h
  intro c hc
  simp only [fmtSlot, List.mem_append, List.mem_cons] at hc
  rcases hc with h | h | h | h | h | h | h
  · obtain ⟨x, y, _, _⟩ := fmt02d_chars ha0 (by omega) c h; exact ⟨x, y⟩
  · subst h; exact ⟨by decide, by decide⟩
  · obtain ⟨x, y, _, _⟩ := fmt02d_chars hb0 (by omega) c h; exact ⟨x, y⟩
  · subst h; exact ⟨by decide, by decide⟩
  · obtain ⟨x, y, _, _⟩ := fmt02d_chars hc0 (by omega) c h; exact ⟨x, y⟩
  · subst h; exact ⟨by decide, by decide⟩
  · obtain ⟨x, y, _, _⟩ := fmt02d_chars hd0 (by omega) c h; exact ⟨x, y⟩

theorem parseSegment_fmtSlot {s : Slot} (h : validSlot s) :
    parseSegment (fmtSlot s) = .ok s := by
  obtain ⟨a, b, c, d⟩ := s
  obtain ⟨ha0, ha23, hb0, hb59, hc0, hc23, hd0, hd59⟩ :
      0 ≤ a ∧ a ≤ 23 ∧ 0 ≤ b ∧ b ≤ 59 ∧ 0 ≤ c ∧ c ≤ 23 ∧ 0 ≤ d ∧ d ≤ 59 := h
  have hA := fmt02d_chars ha0 (by omega : a ≤ 99)
  have hB := fmt02d_chars hb0 (by omega : b ≤ 99)
  have hC := fmt02d_chars hc0 (by omega : c ≤ 99)
  have hD := fmt02d_chars hd0 (by omega : d ≤ 99)
  have hp : fmtSlot (a, b, c, d) =
      (fmt02d a ++ ':' :: fmt02d b) ++ '-' :: (fmt02d c ++ ':' :: fmt02d d) := by
    simp [fmtSlot]
  have hnd : '-' ∉ fmt02d a ++ ':' :: fmt02d b := by
    intro hm
    rcases List.mem_append.mp hm with hm | hm
    · exact (hA '-' hm).2.2.1 rfl
    rcases List.mem_cons.mp hm with hm | hm
    · exact absurd hm (by decide)
    · exact (hB '-' hm).2.2.1 rfl
  have hcA : ':' ∉ fmt02d a := fun hm => (hA ':' hm).2.2.2 rfl
  have hcC : ':' ∉ fmt02d c := fun hm => (hC ':' hm).2.2.2 rfl
  have hdash : '-' ∈ (fmt02d a ++ ':' :: fmt02d b) ++ '-' :: (fmt02d c ++ ':' :: fmt02d d) := by
    simp
  rw [hp]
  unfold parseSegment
  rw [if_pos hdash, splitFirst_append _ hnd]
  have hcol : (':' ∈ (fmt02d a ++ ':' :: fmt02d b, fmt02d c ++ ':' :: fmt02d d).1) ∧
      (':' ∈ (fmt02d a ++ ':' :: fmt02d b, fmt02d c ++ ':' :: fmt02d d).2) := by
    constructor <;> simp
  rw [if_pos hcol]
  simp only
  rw [splitFirst_append _ hcA, splitFirst_append _ hcC]
  simp only
  rw [pyIntDec_fmt02d ha0 (by omega), pyIntDec_fmt02d hb0 (by omega),
      pyIntDec_fmt02d hc0 (by omega), pyIntDec_fmt02d hd0 (by omega)]
  simp only
  rw [if_pos ⟨ha0, ha23, hc0, hc23, hb0, hb59, hd0, hd59⟩]

theorem parseSegList_map_fmtSlot {slots : List Slot} (h : ∀ s ∈ slots, validSlot s) :
    parseSegList (slots.map fmtSlot) = .ok slots := by
  induction slots with
  | nil => rfl
  | cons s rest ih =>
    rw [List.map_cons]
    simp only [parseSegList, parseSegment_fmtSlot (h s (by simp)),
      ih (fun x hx => h x (List.mem_cons_of_mem _ hx))]

/-! Helper lemmas: clamping and the decode of an encoded group. -/

theorem clampH_le (x : Int) : clampH x ≤ 23 := by
  rw [clampH, Int.toNat_le]
  exact max_le (by norm_num) (le_trans (min_le_left ..) (by norm_num))

theorem clampM_le (x : Int) : clampM x ≤ 59 := by
  rw [clampM, Int.toNat_le]
  exact max_le (by norm_num) (le_trans (min_le_left ..) (by norm_num))

theorem clampH_eq {x : Int} (h0 : 0 ≤ x) (h23 : x ≤ 23) : (clampH x : Int) = x := by
  rw [clampH, min_eq_right h23, max_eq_right h0, Int.toNat_of_nonneg h0]

theorem clampM_eq {x : Int} (h0 : 0 ≤ x) (h59 : x ≤ 59) : (clampM x : Int) = x := by
  rw [clampM, min_eq_right h59, max_eq_right h0, Int.toNat_of_nonneg h0]

theorem hexCharU_eq_zero {k : Nat} (hk : k < 16) (h : hexCharU k = '0') : k = 0 := by
  obtain ⟨hv, _⟩ := hexCharU_spec k hk
  rw [h] at hv
  have : hexVal? '0' = some 0 := by decide
  rw [this] at hv
  exact (Option.some.injEq .. ▸ hv).symm

theorem fmt02X_eq_zeros {n : Nat} (h : n < 256) (hz : fmt02X n = ['0', '0']) : n = 0 := by
  rw [fmt02X_eq h] at hz
  have h1 : hexCharU (n / 16) = '0' := (List.cons.injEq .. ▸ hz).1
  have h2 : hexCharU (n % 16) = '0' := by
    have := (List.cons.injEq .. ▸ hz).2
    exact (List.cons.injEq .. ▸ this).1
  have e1 : n / 16 = 0 := hexCharU_eq_zero (by omega) h1
  have e2 : n % 16 = 0 := hexCharU_eq_zero (by omega) h2
  omega

theorem encodeGroup_ne_sentinel {s : Slot} (hv : validSlot s)
    (hnz : s ≠ ((0 : Int), (0 : Int), (0 : Int), (0 : Int))) :
    encodeGroup s ≠ sentinel := by
  obtain ⟨a, b, c, d⟩ := s
  obtain ⟨ha0, ha23, hb0, hb59, hc0, hc23, hd0, hd59⟩ :
      0 ≤ a ∧ a ≤ 23 ∧ 0 ≤ b ∧ b ≤ 59 ∧ 0 ≤ c ∧ c ≤ 23 ∧ 0 ≤ d ∧ d ≤ 59 := hv
  intro h
  have hsent : sentinel =
      (((['0', '0'] ++ ['0', '0']) ++ ['0', '0']) ++ ['0', '0'] : List Char) := by decide
  rw [hsent] at h
  unfold encodeGroup at h
  have e4 := List.append_inj h (by simp [fmt02X_length])
  have e3 := List.append_inj e4.1 (by simp [fmt02X_length])
  have e2 := List.append_inj e3.1 (by simp [fmt02X_length])
  have z1 : clampH a = 0 := fmt02X_eq_zeros (by have := clampH_le a; omega) e2.1
  have z2 : clampM b = 0 := fmt02X_eq_zeros (by have := clampM_le b; omega) e2.2
  have z3 : clampH c = 0 := fmt02X_eq_zeros (by have := clampH_le c; omega) e3.2
  have z4 : clampM d = 0 := fmt02X_eq_zeros (by have := clampM_le d; omega) e4.2
  have ca := clampH_eq ha0 ha23
  have cb := clampM_eq hb0 hb59
  have cc := clampH_eq hc0 hc23
  have cd := clampM_eq hd0 hd59
  apply hnz
  rw [z1] at ca; rw [z2] at cb; rw [z3] at cc; rw [z4] at cd
  have : a = 0 ∧ b = 0 ∧ c = 0 ∧ d = 0 := by
    refine ⟨?_, ?_, ?_, ?_⟩ <;> omega
  simp [this.1, this.2.1, this.2.2.1, this.2.2.2]

theorem encodeGroup_parts (a b c d : Int) :
    (encodeGroup (a, b, c, d)).take 2 = fmt02X (clampH a) ∧
    ((encodeGroup (a, b, c, d)).drop 2).take 2 = fmt02X (clampM b) ∧
    ((encodeGroup (a, b, c, d)).drop 4).take 2 = fmt02X (clampH c) ∧
    ((encodeGroup (a, b, c, d)).drop 6).take 2 = fmt02X (clampM d) := by
  set A := fmt02X (clampH a) with hA
  set B := fmt02X (clampM b) with hB
  set C := fmt02X (clampH c) with hC
  set D := fmt02X (clampM d) with hD
  have lA : A.length = 2 := fmt02X_length _
  have lB : B.length = 2 := fmt02X_length _
  have lC : C.length = 2 := fmt02X_length _
  have lD : D.length = 2 := fmt02X_length _
  have hshape : encodeGroup (a, b, c, d) = A ++ (B ++ (C ++ D)) := by
    unfold encodeGroup
    simp [hA, hB, hC, hD, List.append_assoc]
  refine ⟨?_, ?_, ?_, ?_⟩
  · rw [hshape, ← lA, List.take_left]
  · rw [hshape, ← lA, List.drop_left, lA, ← lB, List.take_left]
  · rw [hshape, show A ++ (B ++ (C ++ D)) = (A ++ B) ++ (C ++ D) by simp,
        show (4 : Nat) = (A ++ B).length by simp [lA, lB], List.drop_left,
        ← lC, List.take_left]
  · rw [hshape, show A ++ (B ++ (C ++ D)) = ((A ++ B) ++ C) ++ D by simp,
        show (6 : Nat) = ((A ++ B) ++ C).length by simp [lA, lB, lC], List.drop_left]
    exact List.take_of_length_le (by omega)

theorem decodeGroup_encodeGroup {s : Slot} (hv : validSlot s)
    (hnz : s ≠ ((0 : Int), (0 : Int), (0 : Int), (0 : Int))) :
    decodeGroup (encodeGroup s) = some (fmtSlot s) := by
  obtain ⟨a, b, c, d⟩ := s
  have hb : 0 ≤ a ∧ a ≤ 23 ∧ 0 ≤ b ∧ b ≤ 59 ∧ 0 ≤ c ∧ c ≤ 23 ∧ 0 ≤ d ∧ d ≤ 59 := hv
  obtain ⟨ha0, ha23, hb0, hb59, hc0, hc23, hd0, hd59⟩ := hb
  obtain ⟨p1, p2, p3, p4⟩ := encodeGroup_parts a b c d
  unfold decodeGroup
  rw [if_neg (encodeGroup_ne_sentinel hv hnz)]
  rw [p1, p2, p3, p4]
  rw [pyIntHex_fmt02X (by have := clampH_le a; omega),
      pyIntHex_fmt02X (by have := clampM_le b; omega),
      pyIntHex_fmt02X (by have := clampH_le c; omega),
      pyIntHex_fmt02X (by have := clampM_le d; omega)]
  simp only
  congr 1
  show fmtSlot (((clampH a : Int), (clampM b : Int), (clampH c : Int), (clampM d : Int))) =
    fmtSlot (a, b, c, d)
  rw [clampH_eq ha0 ha23, clampM_eq hb0 hb59, clampH_eq hc0 hc23, clampM_eq hd0 hd59]

theorem decodeWire_encode {slots : List Slot} (h1 : slots.length ≤ 3)
    (hv : ∀ s ∈ slots, validSlot s)
    (hnz : ∀ s ∈ slots, s ≠ ((0 : Int), (0 : Int), (0 : Int), (0 : Int))) :
    decodeWire (encode_timeslots_from_list slots) = formatSlots slots := by
  match slots with
  | [] =>
    rw [encode_eq_nil]
    decide
  | [a] =>
    have hda := decodeGroup_encodeGroup (hv a (by simp)) (hnz a (by simp))
    rw [encode_eq_one]
    unfold decodeWire
    rw [wireGroups_append3 (encodeGroup_length a) sentinel_length sentinel_length]
    simp only [List.filterMap_cons, hda, decodeGroup_sentinel, List.filterMap_nil]
    simp [formatSlots, joinComma]
  | [a, b] =>
    have hda := decodeGroup_encodeGroup (hv a (by simp)) (hnz a (by simp))
    have hdb := decodeGroup_encodeGroup (hv b (by simp)) (hnz b (by simp))
    rw [encode_eq_two]
    unfold decodeWire
    rw [wireGroups_append3 (encodeGroup_length a) (encodeGroup_length b) sentinel_length]
    simp only [List.filterMap_cons, hda, hdb, decodeGroup_sentinel, List.filterMap_nil]
    simp [formatSlots, joinComma]
  | [a, b, c] =>
    have hda := decodeGroup_encodeGroup (hv a (by simp)) (hnz a (by simp))
    have hdb := decodeGroup_encodeGroup (hv b (by simp)) (hnz b (by simp))
    have hdc := decodeGroup_encodeGroup (hv c (by simp)) (hnz c (by simp))
    rw [encode_eq_three]
    unfold decodeWire
    rw [wireGroups_append3 (encodeGroup_length a) (encodeGroup_length b) (encodeGroup_length c)]
    simp only [List.filterMap_cons, hda, hdb, hdc, decodeGroup_sentinel, List.filterMap_nil]
    simp [formatSlots, joinComma]
  | a :: b :: c :: e :: rest => simp at h1

/-! Helper lemmas: the canonical display string and its parse. -/

theorem joinComma_shape (x : List Char) (xs : List (List Char)) :
    ∃ r, joinComma (x :: xs) = x ++ r := by
  cases xs with
  | nil => exact ⟨[], by simp [joinComma]⟩
  | cons y ys => exact ⟨',' :: ' ' :: joinComma (y :: ys), rfl⟩

theorem joinComma_ne_nil {x : List Char} (hx : x ≠ []) (xs : List (List Char)) :
    joinComma (x :: xs) ≠ [] := by
  obtain ⟨r, hr⟩ := joinComma_shape x xs
  rw [hr]
  simp [hx]

theorem joinComma_length_ge (x : List Char) (xs : List (List Char)) :
    x.length ≤ (joinComma (x :: xs)).length := by
  obtain ⟨r, hr⟩ := joinComma_shape x xs
  rw [hr]
  simp

theorem getLast?_joinComma : ∀ (xs : List (List Char)) (x : List Char),
    (∀ p ∈ x :: xs, p ≠ []) →
    ∃ y ∈ x :: xs, (joinComma (x :: xs)).getLast? = y.getLast? := by
  intro xs
  induction xs with
  | nil => intro x _; exact ⟨x, by simp, by simp [joinComma]⟩
  | cons y ys ih =>
    intro x h
    obtain ⟨y', hy'm, hy'⟩ := ih y (fun p hp => h p (List.mem_cons_of_mem _ hp))
    obtain ⟨j0, jrest, hj⟩ := List.exists_cons_of_ne_nil
      (joinComma_ne_nil (h y (by simp)) ys)
    refine ⟨y', List.mem_cons_of_mem _ hy'm, ?_⟩
    rw [joinComma_cons_cons, List.getLast?_append_of_ne_nil _ (by simp), hj,
        List.getLast?_cons_cons, List.getLast?_cons_cons, ← hj, hy']

theorem pyStrip_formatSlots {slots : List Slot} (hv : ∀ s ∈ slots, validSlot s) :
    pyStrip (formatSlots slots) = formatSlots slots := by
  cases slots with
  | nil => decide
  | cons s rest =>
    have hne : formatSlots (s :: rest) = joinComma ((s :: rest).map fmtSlot) := by
      simp [formatSlots]
    rw [hne]
    have hfne : ∀ p ∈ (s :: rest).map fmtSlot, p ≠ [] := by
      intro p hp
      obtain ⟨q, hq, rfl⟩ := List.mem_map.mp hp
      have := fmtSlot_length (hv q hq)
      intro he
      rw [he] at this
      simp at this
    apply pyStrip_eq_self_of_boundary
    · intro c hc
      obtain ⟨r, hr⟩ := joinComma_shape (fmtSlot s) (rest.map fmtSlot)
      rw [List.map_cons, hr, List.head?_append_of_ne_nil _ (hfne (fmtSlot s) (by simp))] at hc
      exact (fmtSlot_chars (hv s (by simp)) c (List.mem_of_mem_head? hc)).1
    · intro c hc
      obtain ⟨y, hym, hy⟩ := getLast?_joinComma (rest.map fmtSlot) (fmtSlot s)
        (by rw [← List.map_cons]; exact hfne)
      rw [List.map_cons, hy] at hc
      rw [← List.map_cons] at hym
      obtain ⟨q, hq, rfl⟩ := List.mem_map.mp hym
      exact (fmtSlot_chars (hv q hq) c (List.mem_of_mem_getLast? hc)).1

theorem formatSlots_not_clear {s : Slot} {rest : List Slot}
    (hv : ∀ q ∈ s :: rest, validSlot q) :
    ¬ clearDisplay (formatSlots (s :: rest)) := by
  intro hcl
  have hlen : 11 ≤ (formatSlots (s :: rest)).length := by
    have h1 : formatSlots (s :: rest) = joinComma (fmtSlot s :: rest.map fmtSlot) := by
      simp [formatSlots]
    rw [h1]
    have := joinComma_length_ge (fmtSlot s) (rest.map fmtSlot)
    rw [fmtSlot_length (hv s (by simp))] at this
    exact this
  unfold clearDisplay at hcl
  rw [pyStrip_formatSlots hv] at hcl
  rcases hcl with h | h | h | h
  · rw [h] at hlen; simp at hlen
  · rw [h] at hlen; simp at hlen
  · have : (asciiLower (formatSlots (s :: rest))).length = 4 := by rw [h]; rfl
    rw [asciiLower, List.length_map] at this
    omega
  · have : (asciiLower (formatSlots (s :: rest))).length = 4 := by rw [h]; rfl
    rw [asciiLower, List.length_map] at this
    omega

theorem normSegs_formatSlots {s : Slot} {rest : List Slot}
    (hv : ∀ q ∈ s :: rest, validSlot q) :
    normSegsRaw (formatSlots (s :: rest)) = (s :: rest).map fmtSlot := by
  have hnc : ∀ p ∈ (s :: rest).map fmtSlot, ',' ∉ p := by
    intro p hp m
    obtain ⟨q, hq, rfl⟩ := List.mem_map.mp hp
    exact (fmtSlot_chars (hv q hq) ',' m).2 rfl
  have h1 : formatSlots (s :: rest) = joinComma (fmtSlot s :: rest.map fmtSlot) := by
    simp [formatSlots]
  unfold normSegsRaw
  rw [h1, splitOnComma_joinComma _ _ (by rw [← List.map_cons]; exact hnc)]
  have hstrip : ∀ q ∈ s :: rest, pyStrip (fmtSlot q) = fmtSlot q := by
    intro q hq
    exact pyStrip_eq_self_of_all (fun c hc => (fmtSlot_chars (hv q hq) c hc).1)
  rw [List.map_cons, hstrip s (by simp)]
  have hmap2 : ((rest.map fmtSlot).map (fun p => ' ' :: p)).map pyStrip = rest.map fmtSlot := by
    rw [List.map_map, List.map_map]
    apply List.map_congr_left
    intro q hq
    show pyStrip (' ' :: fmtSlot q) = fmtSlot q
    rw [pyStrip_cons_ws (by decide), hstrip q (List.mem_cons_of_mem _ hq)]
  rw [hmap2, ← List.map_cons]
  apply List.filter_eq_self.mpr
  intro p hp
  obtain ⟨q, hq, rfl⟩ := List.mem_map.mp hp
  have hl := fmtSlot_length (hv q hq)
  cases hfq : fmtSlot q with
  | nil => rw [hfq] at hl; simp at hl
  | cons a t => simp

theorem parse_formatSlots {slots : List Slot} (h1 : slots.length ≤ 3)
    (hv : ∀ s ∈ slots, validSlot s) :
    parse_display_string_to_slots (some (formatSlots slots)) = .ok slots := by
  cases slots with
  | nil =>
    have hc : clearDisplay (formatSlots []) := by decide
    simp [parse_display_string_to_slots, hc]
  | cons s rest =>
    simp only [parse_display_string_to_slots]
    rw [if_neg (formatSlots_not_clear hv)]
    rw [pyStrip_formatSlots hv, normSegs_formatSlots hv]
    rw [List.take_of_length_le (by rw [List.length_map]; exact h1)]
    exact parseSegList_map_fmtSlot hv

theorem parseSegList_error {l : List (List Char)}
    (h : ∃ p ∈ l, ∃ e, parseSegment p = .error e) :
    ∃ e, parseSegList l = .error e := by
  induction l with
  | nil => obtain ⟨p, hp, _⟩ := h; cases hp
  | cons q rest ih =>
    cases hq : parseSegment q with
    | error e => exact ⟨e, by simp [parseSegList, hq]⟩
    | ok s =>
      obtain ⟨p, hp, e, hpe⟩ := h
      rcases List.mem_cons.mp hp with rfl | hp2
      · rw [hq] at hpe; simp at hpe
      · obtain ⟨e2, he2⟩ := ih ⟨p, hp2, e, hpe⟩
        exact ⟨e2, by simp [parseSegList, hq, he2]⟩

theorem parseSegment_dash {p : List Char} (h1 : '-' ∉ p) :
    parseSegment p = .error (msgDash p) := by
  unfold parseSegment
  rw [if_neg h1]

theorem parseSegment_colon {p : List Char} (h1 : '-' ∈ p)
    (h2 : ¬ ((':' ∈ (splitFirst '-' p).1) ∧ (':' ∈ (splitFirst '-' p).2))) :
    parseSegment p = .error (msgColon p) := by
  unfold parseSegment
  rw [if_pos h1, if_neg h2]

theorem parseSegment_err1 {p : List Char} (h1 : '-' ∈ p)
    (h2 : (':' ∈ (splitFirst '-' p).1) ∧ (':' ∈ (splitFirst '-' p).2))
    (hx1 : pyIntDec (splitFirst ':' (splitFirst '-' p).1).1 = none) :
    parseSegment p = .error (msgIntLit (splitFirst ':' (splitFirst '-' p).1).1) := by
  unfold parseSegment
  rw [if_pos h1, if_pos h2, hx1]

theorem parseSegment_err2 {p : List Char} (h1 : '-' ∈ p)
    (h2 : (':' ∈ (splitFirst '-' p).1) ∧ (':' ∈ (splitFirst '-' p).2))
    {sh : Int} (hx1 : pyIntDec (splitFirst ':' (splitFirst '-' p).1).1 = some sh)
    (hx2 : pyIntDec (splitFirst ':' (splitFirst '-' p).1).2 = none) :
    parseSegment p = .error (msgIntLit (splitFirst ':' (splitFirst '-' p).1).2) := by
  unfold parseSegment
  rw [if_pos h1, if_pos h2, hx1, hx2]

theorem parseSegment_err3 {p : List Char} (h1 : '-' ∈ p)
    (h2 : (':' ∈ (splitFirst '-' p).1) ∧ (':' ∈ (splitFirst '-' p).2))
    {sh sm : Int} (hx1 : pyIntDec (splitFirst ':' (splitFirst '-' p).1).1 = some sh)
    (hx2 : pyIntDec (splitFirst ':' (splitFirst '-' p).1).2 = some sm)
    (hx3 : pyIntDec (splitFirst ':' (splitFirst '-' p).2).1 = none) :
    parseSegment p = .error (msgIntLit (splitFirst ':' (splitFirst '-' p).2).1) := by
  unfold parseSegment
  rw [if_pos h1, if_pos h2, hx1, hx2, hx3]

theorem parseSegment_err4 {p : List Char} (h1 : '-' ∈ p)
    (h2 : (':' ∈ (splitFirst '-' p).1) ∧ (':' ∈ (splitFirst '-' p).2))
    {sh sm eh : Int} (hx1 : pyIntDec (splitFirst ':' (splitFirst '-' p).1).1 = some sh)
    (hx2 : pyIntDec (splitFirst ':' (splitFirst '-' p).1).2 = some sm)
    (hx3 : pyIntDec (splitFirst ':' (splitFirst '-' p).2).1 = some eh)
    (hx4 : pyIntDec (splitFirst ':' (splitFirst '-' p).2).2 = none) :
    parseSegment p = .error (msgIntLit (splitFirst ':' (splitFirst '-' p).2).2) := by
  unfold parseSegment
  rw [if_pos h1, if_pos h2, hx1, hx2, hx3, hx4]

theorem parseSegment_eval {p : List Char} (h1 : '-' ∈ p)
    (h2 : (':' ∈ (splitFirst '-' p).1) ∧ (':' ∈ (splitFirst '-' p).2))
    {sh sm eh em : Int}
    (hx1 : pyIntDec (splitFirst ':' (splitFirst '-' p).1).1 = some sh)
    (hx2 : pyIntDec (splitFirst ':' (splitFirst '-' p).1).2 = some sm)
    (hx3 : pyIntDec (splitFirst ':' (splitFirst '-' p).2).1 = some eh)
    (hx4 : pyIntDec (splitFirst ':' (splitFirst '-' p).2).2 = some em) :
    parseSegment p =
      if 0 ≤ sh ∧ sh ≤ 23 ∧ 0 ≤ eh ∧ eh ≤ 23 ∧ 0 ≤ sm ∧ sm ≤ 59 ∧ 0 ≤ em ∧ em ≤ 59 then
        .ok (sh, sm, eh, em)
      else .error (msgRange p) := by
  unfold parseSegment
  rw [if_pos h1, if_pos h2, hx1, hx2, hx3, hx4]

theorem segmentFlaw_iff (p : List Char) :
    segmentFlaw p ↔ ∃ e, parseSegment p = .error e := by
  by_cases h1 : ('-' ∈ p)
  case neg =>
    rw [parseSegment_dash h1]
    exact ⟨fun _ => ⟨_, rfl⟩, fun _ => Or.inl h1⟩
  case pos =>
    by_cases h2 : (':' ∈ (splitFirst '-' p).1) ∧ (':' ∈ (splitFirst '-' p).2)
    case neg =>
      rw [parseSegment_colon h1 h2]
      refine ⟨fun _ => ⟨_, rfl⟩, fun _ => ?_⟩
      rcases not_and_or.mp h2 with h | h
      · exact Or.inr (Or.inl h)
      · exact Or.inr (Or.inr (Or.inl h))
    case pos =>
      cases hx1 : pyIntDec (splitFirst ':' (splitFirst '-' p).1).1 with
      | none =>
        rw [parseSegment_err1 h1 h2 hx1]
        exact ⟨fun _ => ⟨_, rfl⟩, fun _ => Or.inr (Or.inr (Or.inr (Or.inl hx1)))⟩
      | some sh =>
        cases hx2 : pyIntDec (splitFirst ':' (splitFirst '-' p).1).2 with
        | none =>
          rw [parseSegment_err2 h1 h2 hx1 hx2]
          exact ⟨fun _ => ⟨_, rfl⟩,
            fun _ => Or.inr (Or.inr (Or.inr (Or.inr (Or.inl hx2))))⟩
        | some sm =>
          cases hx3 : pyIntDec (splitFirst ':' (splitFirst '-' p).2).1 with
          | none =>
            rw [parseSegment_err3 h1 h2 hx1 hx2 hx3]
            exact ⟨fun _ => ⟨_, rfl⟩,
              fun _ => Or.inr (Or.inr (Or.inr (Or.inr (Or.inr (Or.inl hx3)))))⟩
          | some eh =>
            cases hx4 : pyIntDec (splitFirst ':' (splitFirst '-' p).2).2 with
            | none =>
              rw [parseSegment_err4 h1 h2 hx1 hx2 hx3 hx4]
              exact ⟨fun _ => ⟨_, rfl⟩,
                fun _ => Or.inr (Or.inr (Or.inr (Or.inr (Or.inr (Or.inr (Or.inl hx4))))))⟩
            | some em =>
              rw [parseSegment_eval h1 h2 hx1 hx2 hx3 hx4]
              by_cases hr : 0 ≤ sh ∧ sh ≤ 23 ∧ 0 ≤ eh ∧ eh ≤ 23 ∧
        0 ≤ sm ∧ sm ≤ 59 ∧ 0 ≤ em ∧ em ≤ 59
              case pos =>
                rw [if_pos hr]
                constructor
                · intro hf
                  rcases hf with f | f | f | f | f | f | f |
                    ⟨sh', sm', eh', em', e1, e2, e3, e4, hnr⟩
                  · exact absurd h1 f
                  · exact absurd h2.1 f
                  · exact absurd h2.2 f
                  · rw [hx1] at f; cases f
                  · rw [hx2] at f; cases f
                  · rw [hx3] at f; cases f
                  · rw [hx4] at f; cases f
                  · rw [hx1] at e1; rw [hx2] at e2; rw [hx3] at e3; rw [hx4] at e4
                    injection e1 with e1'
                    injection e2 with e2'
                    injection e3 with e3'
                    injection e4 with e4'
                    subst e1'; subst e2'; subst e3'; subst e4'
                    exact absurd hr hnr
                · rintro ⟨e, he⟩
                  simp at he
              case neg =>
                rw [if_neg hr]
                refine ⟨fun _ => ⟨_, rfl⟩, fun _ => ?_⟩
                exact Or.inr (Or.inr (Or.inr (Or.inr (Or.inr (Or.inr (Or.inr
                  ⟨sh, sm, eh, em, hx1, hx2, hx3, hx4, hr⟩))))))

theorem parseSegment_error_forms {p e : List Char}
    (h : parseSegment p = .error e) :
    e = msgDash p ∨ e = msgColon p ∨ e = msgRange p ∨ ∃ lit, e = msgIntLit lit := by
  by_cases h1 : ('-' ∈ p)
  case neg =>
    rw [parseSegment_dash h1] at h
    injection h with h'
    exact Or.inl h'.symm
  case pos =>
    by_cases h2 : (':' ∈ (splitFirst '-' p).1) ∧ (':' ∈ (splitFirst '-' p).2)
    case neg =>
      rw [parseSegment_colon h1 h2] at h
      injection h with h'
      exact Or.inr (Or.inl h'.symm)
    case pos =>
      cases hx1 : pyIntDec (splitFirst ':' (splitFirst '-' p).1).1 with
      | none =>
        rw [parseSegment_err1 h1 h2 hx1] at h
        injection h with h'
        exact Or.inr (Or.inr (Or.inr ⟨_, h'.symm⟩))
      | some sh =>
        cases hx2 : pyIntDec (splitFirst ':' (splitFirst '-' p).1).2 with
        | none =>
          rw [parseSegment_err2 h1 h2 hx1 hx2] at h
          injection h with h'
          exact Or.inr (Or.inr (Or.inr ⟨_, h'.symm⟩))
        | some sm =>
          cases hx3 : pyIntDec (splitFirst ':' (splitFirst '-' p).2).1 with
          | none =>
            rw [parseSegment_err3 h1 h2 hx1 hx2 hx3] at h
            injection h with h'
            exact Or.inr (Or.inr (Or.inr ⟨_, h'.symm⟩))
          | some eh =>
            cases hx4 : pyIntDec (splitFirst ':' (splitFirst '-' p).2).2 with
            | none =>
              rw [parseSegment_err4 h1 h2 hx1 hx2 hx3 hx4] at h
              injection h with h'
              exact Or.inr (Or.inr (Or.inr ⟨_, h'.symm⟩))
            | some em =>
              rw [parseSegment_eval h1 h2 hx1 hx2 hx3 hx4] at h
              by_cases hr : 0 ≤ sh ∧ sh ≤ 23 ∧ 0 ≤ eh ∧ eh ≤ 23 ∧
        0 ≤ sm ∧ sm ≤ 59 ∧ 0 ≤ em ∧ em ≤ 59
              case pos => rw [if_pos hr] at h; simp at h
              case neg =>
                rw [if_neg hr] at h
                injection h with h'
                exact Or.inr (Or.inr (Or.inl h'.symm))

/-! Helper lemmas: shapes of decoded values. -/

theorem fmtSlot_length_ge (q : Slot) : 11 ≤ (fmtSlot q).length := by
  have h1 := fmt02d_length_ge q.1
  have h2 := fmt02d_length_ge q.2.1
  have h3 := fmt02d_length_ge q.2.2.1
  have h4 := fmt02d_length_ge q.2.2.2
  simp only [fmtSlot, List.length_append, List.length_cons]
  omega

theorem decodeGroup_some_shape {g f : List Char} (h : decodeGroup g = some f) :
    ∃ q : Slot, f = fmtSlot q := by
  by_cases hsent : g = sentinel
  · unfold decodeGroup at h
    rw [if_pos hsent] at h
    cases h
  · unfold decodeGroup at h
    rw [if_neg hsent] at h
    cases e1 : pyIntHex (g.take 2) with
    | none => rw [e1] at h; cases h
    | some a =>
      rw [e1] at h
      cases e2 : pyIntHex ((g.drop 2).take 2) with
      | none => rw [e2] at h; cases h
      | some b =>
        rw [e2] at h
        cases e3 : pyIntHex ((g.drop 4).take 2) with
        | none => rw [e3] at h; cases h
        | some c =>
          rw [e3] at h
          cases e4 : pyIntHex ((g.drop 6).take 2) with
          | none => rw [e4] at h; cases h
          | some d =>
            rw [e4] at h
            injection h with h'
            exact ⟨_, h'.symm⟩

theorem decodeWire_eq_zero_inv {cs : List Char} (h : decodeWire cs = ['0']) :
    (wireGroups cs).filterMap decodeGroup = [] := by
  cases hfs : (wireGroups cs).filterMap decodeGroup with
  | nil => rfl
  | cons f fs =>
    unfold decodeWire at h
    rw [hfs] at h
    have hmem : f ∈ (wireGroups cs).filterMap decodeGroup := by rw [hfs]; simp
    obtain ⟨g, _, hg⟩ := List.mem_filterMap.mp hmem
    obtain ⟨q, rfl⟩ := decodeGroup_some_shape hg
    have hlen : 11 ≤ (fmtSlot q).length := fmtSlot_length_ge q
    have hle := joinComma_length_ge (fmtSlot q) fs
    have h2 : joinComma (fmtSlot q :: fs) = ['0'] := h
    have : (joinComma (fmtSlot q :: fs)).length = 1 := by rw [h2]; rfl
    omega

theorem decodeGroup_none_of_fail {g : List Char} (hf : groupConvFails g) :
    decodeGroup g = none := by
  by_cases hsent : g = sentinel
  · subst hsent
    rcases hf with h | h | h | h <;> revert h <;> decide
  · unfold decodeGroup
    rw [if_neg hsent]
    unfold groupConvFails at hf
    cases e1 : pyIntHex (g.take 2) with
    | none => rfl
    | some a =>
      cases e2 : pyIntHex ((g.drop 2).take 2) with
      | none => rfl
      | some b =>
        cases e3 : pyIntHex ((g.drop 4).take 2) with
        | none => rfl
        | some c =>
          cases e4 : pyIntHex ((g.drop 6).take 2) with
          | none => rfl
          | some d =>
            rw [e1, e2, e3, e4] at hf
            rcases hf with h | h | h | h <;> cases h

theorem decodeGroup_eq_spec {g : List Char} (hlen : g.length = 8)
    (hhex : ∀ c ∈ g, (hexVal? c).isSome) : decodeGroup g = decodeGroupSpec g := by
  by_cases hsent : g = sentinel
  · unfold decodeGroup decodeGroupSpec
    rw [if_pos hsent, if_pos hsent]
  rcases g with _ | ⟨a0, g⟩; · simp at hlen
  rcases g with _ | ⟨a1, g⟩; · simp at hlen
  rcases g with _ | ⟨a2, g⟩; · simp at hlen
  rcases g with _ | ⟨a3, g⟩; · simp at hlen
  rcases g with _ | ⟨a4, g⟩; · simp at hlen
  rcases g with _ | ⟨a5, g⟩; · simp at hlen
  rcases g with _ | ⟨a6, g⟩; · simp at hlen
  rcases g with _ | ⟨a7, g⟩; · simp at hlen
  have hg : g = [] := by
    simp only [List.length_cons] at hlen
    exact List.length_eq_zero.mp (by omega)
  subst hg
  obtain ⟨v0, hv0⟩ := Option.isSome_iff_exists.mp (hhex a0 (by simp))
  obtain ⟨v1, hv1⟩ := Option.isSome_iff_exists.mp (hhex a1 (by simp))
  obtain ⟨v2, hv2⟩ := Option.isSome_iff_exists.mp (hhex a2 (by simp))
  obtain ⟨v3, hv3⟩ := Option.isSome_iff_exists.mp (hhex a3 (by simp))
  obtain ⟨v4, hv4⟩ := Option.isSome_iff_exists.mp (hhex a4 (by simp))
  obtain ⟨v5, hv5⟩ := Option.isSome_iff_exists.mp (hhex a5 (by simp))
  obtain ⟨v6, hv6⟩ := Option.isSome_iff_exists.mp (hhex a6 (by simp))
  obtain ⟨v7, hv7⟩ := Option.isSome_iff_exists.mp (hhex a7 (by simp))
  unfold decodeGroup decodeGroupSpec
  rw [if_neg hsent, if_neg hsent]
  have t1 : ([a0, a1, a2, a3, a4, a5, a6, a7].take 2) = [a0, a1] := rfl
  have t2 : (([a0, a1, a2, a3, a4, a5, a6, a7].drop 2).take 2) = [a2, a3] := rfl
  have t3 : (([a0, a1, a2, a3, a4, a5, a6, a7].drop 4).take 2) = [a4, a5] := rfl
  have t4 : (([a0, a1, a2, a3, a4, a5, a6, a7].drop 6).take 2) = [a6, a7] := rfl
  rw [t1, t2, t3, t4, pyIntHex_two hv0 hv1, pyIntHex_two hv2 hv3,
      pyIntHex_two hv4 hv5, pyIntHex_two hv6 hv7]
  simp only [List.getD_cons_zero, List.getD_cons_succ]
  unfold hexPairNat
  rw [hv0, hv1, hv2, hv3, hv4, hv5, hv6, hv7]
  rfl

theorem decodeWire_eq_spec {cs : List Char} (hlen : cs.length = 24)
    (hhex : ∀ c ∈ cs, (hexVal? c).isSome) : decodeWire cs = decodeWireSpec cs := by
  have l1 : (cs.take 8).length = 8 := by simp [hlen]
  have l2 : ((cs.drop 8).take 8).length = 8 := by simp [hlen]
  have l3 : ((cs.drop 16).take 8).length = 8 := by simp [hlen]
  have m1 : ∀ c ∈ cs.take 8, (hexVal? c).isSome :=
    fun c hc => hhex c (List.take_subset _ _ hc)
  have m2 : ∀ c ∈ (cs.drop 8).take 8, (hexVal? c).isSome :=
    fun c hc => hhex c (List.drop_subset _ _ (List.take_subset _ _ hc))
  have m3 : ∀ c ∈ (cs.drop 16).take 8, (hexVal? c).isSome :=
    fun c hc => hhex c (List.drop_subset _ _ (List.take_subset _ _ hc))
  unfold decodeWire decodeWireSpec wireGroups
  rw [List.filterMap_cons, List.filterMap_cons, List.filterMap_cons,
      List.filterMap_nil, List.filterMap_cons, List.filterMap_cons,
      List.filterMap_cons, List.filterMap_nil,
      decodeGroup_eq_spec l1 m1, decodeGroup_eq_spec l2 m2, decodeGroup_eq_spec l3 m3]

theorem not_clear_of_segs {s : List Char} (h : 3 ≤ (normSegsRaw s).length) :
    ¬ clearDisplay s := by
  intro hc
  have := clearDisplay_segs_le_one hc
  omega

theorem async_set_value_no_send {st : TextState} {v : List Char} {resp : CtrlResp}
    {e : List Char}
    (h : parse_display_string_to_slots (some (pyStrip v)) = .error e) :
    async_set_value st (some v) resp = (st, none) := by
  have h0 : ¬ (pyStrip v = ['0'] ∨ pyStrip v = []) := by
    rintro (h1 | h1)
    · rw [h1] at h
      have hz : parse_display_string_to_slots (some ['0']) = .ok [] := rfl
      rw [hz] at h
      cases h
    · rw [h1] at h
      have hz : parse_display_string_to_slots (some ([] : List Char)) = .ok [] := rfl
      rw [hz] at h
      cases h
  simp only [async_set_value]
  rw [if_neg h0, h]

/-! Claim theorems. -/

/-- C2: for every list of at most 3 slots, `encode_timeslots_from_list`
returns 24 characters laid out as 3 eight-character groups, group i being the
clamped slot i and every later group the sentinel; the clamps stay in range
and are the identity on in-range values; the empty list encodes to 24 zeros
and `[(25, 61, 5, 5)]` clamps to hex 17/3B and encodes without error. -/
theorem encode_structure (slots : List Slot) (h : slots.length ≤ 3) :
    (encode_timeslots_from_list slots).length = 24 ∧
    wireGroups (encode_timeslots_from_list slots) =
      [if 0 < slots.length then encodeGroup (slots.getD 0 (0, 0, 0, 0)) else sentinel,
       if 1 < slots.length then encodeGroup (slots.getD 1 (0, 0, 0, 0)) else sentinel,
       if 2 < slots.length then encodeGroup (slots.getD 2 (0, 0, 0, 0)) else sentinel] ∧
    (∀ x : Int, clampH x ≤ 23 ∧ clampM x ≤ 59) ∧
    (∀ x : Int, 0 ≤ x → x ≤ 23 → (clampH x : Int) = x) ∧
    (∀ x : Int, 0 ≤ x → x ≤ 59 → (clampM x : Int) = x) ∧
    encode_timeslots_from_list [] = "000000000000000000000000".toList ∧
    encode_timeslots_from_list [(25, 61, 5, 5)] = "173B05050000000000000000".toList := by
  refine ⟨encode_length slots, ?_, fun x => ⟨clampH_le x, clampM_le x⟩,
    fun x h0 h23 => clampH_eq h0 h23, fun x h0 h59 => clampM_eq h0 h59,
    by decide, by decide⟩
  match slots with
  | [] =>
    rw [encode_eq_nil, wireGroups_append3 sentinel_length sentinel_length sentinel_length]
    simp
  | [a] =>
    rw [encode_eq_one, wireGroups_append3 (encodeGroup_length a) sentinel_length sentinel_length]
    simp
  | [a, b] =>
    rw [encode_eq_two,
        wireGroups_append3 (encodeGroup_length a) (encodeGroup_length b) sentinel_length]
    simp
  | [a, b, c] =>
    rw [encode_eq_three,
        wireGroups_append3 (encodeGroup_length a) (encodeGroup_length b) (encodeGroup_length c)]
    simp
  | a :: b :: c :: d :: rest => simp at h

/-- C2 witness: the theorem applied to a concrete one-slot list. -/
theorem encode_structure_witness :
    (encode_timeslots_from_list [((7 : Int), 30, 16, 45)]).length = 24 :=
  (encode_structure [(7, 30, 16, 45)] (by decide)).1

/-- C6: `parse_display_string_to_slots` returns the empty slot list for
`None` and for every clear token (empty, `"0"`, case-insensitive
`"none"`/`"null"` after trimming); otherwise it acts on the comma-split,
trimmed, non-empty segments, taking at most the first 3, so that appending a
4th or later segment never changes the result (and in particular never makes
it raise). -/
theorem parse_clear_and_truncate :
    parse_display_string_to_slots none = .ok [] ∧
    (∀ d, clearDisplay d → parse_display_string_to_slots (some d) = .ok []) ∧
    (∀ d, ¬ clearDisplay d →
      parse_display_string_to_slots (some d) = parseSegList ((normSegsRaw d).take 3)) ∧
    (∀ s t, 3 ≤ (normSegsRaw s).length →
      parse_display_string_to_slots (some (s ++ ',' :: t)) =
        parse_display_string_to_slots (some s)) := by
  have key : ∀ d, ¬ clearDisplay d →
      parse_display_string_to_slots (some d) = parseSegList ((normSegsRaw d).take 3) := by
    intro d hd
    simp only [parse_display_string_to_slots]
    rw [if_neg hd, normSegs_strip]
  refine ⟨rfl, ?_, key, ?_⟩
  · intro d hd
    simp only [parse_display_string_to_slots]
    rw [if_pos hd]
  · intro s t h3
    have hns : normSegsRaw (s ++ ',' :: t) = normSegsRaw s ++ normSegsRaw t :=
      normSegs_append_comma s t
    have hcs : ¬ clearDisplay s := not_clear_of_segs h3
    have hcu : ¬ clearDisplay (s ++ ',' :: t) := by
      apply not_clear_of_segs
      rw [hns, List.length_append]
      omega
    rw [key _ hcu, key _ hcs, hns, List.take_append_of_le_length h3]

/-- C6 witness: the clear-token branch applied to a concrete input. -/
theorem parse_clear_and_truncate_witness :
    parse_display_string_to_slots (some " NULL ".toList) = .ok [] :=
  parse_clear_and_truncate.2.1 " NULL ".toList (by decide)

/-- C7 counterexample: the claim as stated fails twice on the code.  The
input `"0"` has a first segment without a dash yet `parse` returns the empty
list instead of raising, and for non-numeric content (`"7a:00-09:00"`) the
raised message names only the offending literal `7a`, not the whole
segment (the segment is not a suffix of the message). -/
theorem parse_error_claim_fails :
    ('-' ∉ (['0'] : List Char)) ∧
    normSegsRaw (pyStrip "0".toList) = [['0']] ∧
    parse_display_string_to_slots (some "0".toList) = .ok [] ∧
    parse_display_string_to_slots (some "7a:00-09:00".toList) =
      .error (msgIntLit "7a".toList) ∧
    ¬ List.IsSuffix "7a:00-09:00".toList (msgIntLit "7a".toList) :=
  ⟨by decide, by decide, rfl, rfl, by decide⟩

/-- C7 amended: on a non-clear input whose first 3 segments include a flawed
one (missing dash, side without colon, non-numeric content, or out-of-range
value) `parse_display_string_to_slots` raises; each raised message is the
dash, colon or range message naming the whole segment, or the integer-parse
message naming the offending literal; and whenever the parse raises,
`async_set_value` sends nothing to the device and leaves the state
unchanged. -/
theorem parse_rejection_behavior :
    (∀ p, segmentFlaw p ↔ ∃ e, parseSegment p = .error e) ∧
    (∀ d, ¬ clearDisplay d →
      (∃ p ∈ (normSegsRaw d).take 3, segmentFlaw p) →
      ∃ e, parse_display_string_to_slots (some d) = .error e) ∧
    (∀ p e, parseSegment p = .error e →
      e = msgDash p ∨ e = msgColon p ∨ e = msgRange p ∨ ∃ lit, e = msgIntLit lit) ∧
    (∀ st v resp e, parse_display_string_to_slots (some (pyStrip v)) = .error e →
      async_set_value st (some v) resp = (st, none)) := by
  refine ⟨segmentFlaw_iff, ?_, fun p e he => parseSegment_error_forms he,
    fun st v resp e he => async_set_value_no_send he⟩
  intro d hd ⟨p, hp, hflaw⟩
  simp only [parse_display_string_to_slots]
  rw [if_neg hd, normSegs_strip]
  exact parseSegList_error ⟨p, hp, (segmentFlaw_iff p).mp hflaw⟩

/-- C7 witness: a rejected set request leaves the state untouched and sends
nothing. -/
theorem parse_rejection_behavior_witness :
    async_set_value ⟨some ['X'], true⟩ (some "99:00-09:00".toList) CtrlResp.rtrue =
      (⟨some ['X'], true⟩, none) :=
  parse_rejection_behavior.2.2.2 ⟨some ['X'], true⟩ "99:00-09:00".toList CtrlResp.rtrue
    (msgRange "99:00-09:00".toList) (by rfl)

/-- C5: the text entity's `update_from_latest_data` sets the native value to
`None` and availability to `False` for an absent, non-string or
wrong-length raw value; the all-sentinel 24-character wire instead yields
the available display `"0"`, a distinct state, and `(some "0", true)` arises
only from a 24-character string all of whose groups are skipped. -/
theorem text_update_unavailable (v : PyObj)
    (h : v = PyObj.onone ∨ v = PyObj.oother ∨ ∃ cs, v = PyObj.ostr cs ∧ cs.length ≠ 24) :
    text_update_from_latest_data v = (none, false) ∧
    text_update_from_latest_data (.ostr "000000000000000000000000".toList) =
      (some ['0'], true) ∧
    ((none : Option (List Char)), false) ≠ (some ['0'], true) ∧
    (∀ w, text_update_from_latest_data w = (some ['0'], true) →
      ∃ cs, w = PyObj.ostr cs ∧ cs.length = 24 ∧
        (wireGroups cs).filterMap decodeGroup = []) := by
  refine ⟨?_, rfl, by simp, ?_⟩
  · rcases h with rfl | rfl | ⟨cs, rfl, hlen⟩
    · rfl
    · rfl
    · simp only [text_update_from_latest_data]
      rw [if_neg hlen]
  · intro w hw
    cases w with
    | onone => simp [text_update_from_latest_data] at hw
    | oother => simp [text_update_from_latest_data] at hw
    | ostr cs =>
      by_cases hl : cs.length = 24
      · simp only [text_update_from_latest_data] at hw
        rw [if_pos hl] at hw
        simp only [Prod.mk.injEq, Option.some.injEq] at hw
        exact ⟨cs, rfl, hl, decodeWire_eq_zero_inv hw.1⟩
      · simp only [text_update_from_latest_data] at hw
        rw [if_neg hl] at hw
        simp at hw

/-- C5 witness: an absent value yields the unavailable state. -/
theorem text_update_unavailable_witness :
    text_update_from_latest_data PyObj.onone = (none, false) :=
  (text_update_unavailable PyObj.onone (Or.inl rfl)).1

/-- C3 amended: on every 24-character all-hex-digit wire the decode path of
`update_from_latest_data` computes exactly the specified algorithm (split
into 3 groups of 8, skip the sentinel, read the four 2-character fields as
base-16 unsigned integers, format and join with a comma and space, `"0"` if
no group survives).  The concrete wire for `"07:00-09:00, 18:00-22:00"` is
`"070009001200160000000000"` (hex 12 is 18, hex 16 is 22); the wire
`"0700090018002200" + "00000000"` decodes to `"07:00-09:00, 24:00-34:00"`
because hex 18 is 24 and hex 22 is 34. -/
theorem decode_matches_spec (cs : List Char) (h24 : cs.length = 24)
    (hhex : ∀ c ∈ cs, (hexVal? c).isSome) :
    decodeWire cs = decodeWireSpec cs ∧
    decodeWire "070009001200160000000000".toList = "07:00-09:00, 18:00-22:00".toList ∧
    decodeWire "070009001800220000000000".toList = "07:00-09:00, 24:00-34:00".toList ∧
    decodeWire "000000000000000000000000".toList = ['0'] :=
  ⟨decodeWire_eq_spec h24 hhex, rfl, rfl, rfl⟩

/-- C3 witness: the refinement applied to a concrete hex wire. -/
theorem decode_matches_spec_witness :
    decodeWire "0C1E102D00000000000000FF".toList =
      decodeWireSpec "0C1E102D00000000000000FF".toList :=
  (decode_matches_spec "0C1E102D00000000000000FF".toList (by decide) (by decide)).1

/-- C3 counterexample: the claim's example wire decodes to
`"07:00-09:00, 24:00-34:00"`, not `"07:00-09:00, 18:00-22:00"`, because the
sub-fields are read base-16. -/
theorem decode_example_mismatch :
    decodeWire "070009001800220000000000".toList = "07:00-09:00, 24:00-34:00".toList ∧
    "07:00-09:00, 24:00-34:00".toList ≠ "07:00-09:00, 18:00-22:00".toList :=
  ⟨rfl, by decide⟩

/-- C4 amended: decode never raises; a group on which the base-16 integer
conversion of some sub-field fails is skipped wherever it sits, contributing
nothing (the wire behaves as if that group were the sentinel), and decoding
continues with the remaining groups.  Stated for each of the 3 positions of
the group list, to which every 24-character wire decomposes; `"GGGGGGGG"`
plus two sentinel groups decodes to `"0"`, and a malformed third group
leaves the first two decoded.  A group may contain non-hex characters
(sign, whitespace) and still convert, per the counterexample. -/
theorem decode_skips_failed_groups (g1 g2 g3 : List Char)
    (h1 : g1.length = 8) (h2 : g2.length = 8) (h3 : g3.length = 8) :
    (groupConvFails g1 →
      decodeWire (g1 ++ (g2 ++ g3)) = decodeWire (sentinel ++ (g2 ++ g3))) ∧
    (groupConvFails g2 →
      decodeWire (g1 ++ (g2 ++ g3)) = decodeWire (g1 ++ (sentinel ++ g3))) ∧
    (groupConvFails g3 →
      decodeWire (g1 ++ (g2 ++ g3)) = decodeWire (g1 ++ (g2 ++ sentinel))) ∧
    (∀ cs : List Char, cs.length = 24 →
      cs = cs.take 8 ++ ((cs.drop 8).take 8 ++ (cs.drop 16).take 8) ∧
      (cs.take 8).length = 8 ∧ ((cs.drop 8).take 8).length = 8 ∧
      ((cs.drop 16).take 8).length = 8) ∧
    decodeWire ("GGGGGGGG".toList ++ ("00000000".toList ++ "00000000".toList)) = ['0'] ∧
    decodeWire ("07000900".toList ++ ("12001600".toList ++ "GGGGGGGG".toList)) =
      "07:00-09:00, 18:00-22:00".toList := by
  have key : ∀ (a : List Char) (l l2 : List (List Char)),
      List.filterMap decodeGroup l = List.filterMap decodeGroup l2 →
      List.filterMap decodeGroup (a :: l) = List.filterMap decodeGroup (a :: l2) := by
    intro a l l2 h
    rw [List.filterMap_cons, List.filterMap_cons, h]
  refine ⟨?_, ?_, ?_, ?_, rfl, rfl⟩
  · intro hf
    unfold decodeWire
    rw [wireGroups_append3 h1 h2 h3, wireGroups_append3 sentinel_length h2 h3,
        List.filterMap_cons_none (decodeGroup_none_of_fail hf),
        List.filterMap_cons_none decodeGroup_sentinel]
  · intro hf
    have htail : List.filterMap decodeGroup [g2, g3] =
        List.filterMap decodeGroup [sentinel, g3] := by
      rw [List.filterMap_cons_none (decodeGroup_none_of_fail hf),
          List.filterMap_cons_none decodeGroup_sentinel]
    unfold decodeWire
    rw [wireGroups_append3 h1 h2 h3, wireGroups_append3 h1 sentinel_length h3,
        key g1 [g2, g3] [sentinel, g3] htail]
  · intro hf
    have hg3 : List.filterMap decodeGroup [g3] = List.filterMap decodeGroup [sentinel] := by
      rw [List.filterMap_cons_none (decodeGroup_none_of_fail hf),
          List.filterMap_cons_none decodeGroup_sentinel]
    unfold decodeWire
    rw [wireGroups_append3 h1 h2 h3, wireGroups_append3 h1 h2 sentinel_length,
        key g1 [g2, g3] [g2, sentinel] (key g2 [g3] [sentinel] hg3)]
  · intro cs h24
    have h3eq : (cs.drop 8).drop 8 = (cs.drop 16).take 8 := by
      rw [List.drop_drop, show (8 + 8 : Nat) = 16 from rfl,
          List.take_of_length_le (show (cs.drop 16).length ≤ 8 by simp [h24])]
    refine ⟨?_, by simp [h24], by simp [h24], by simp [h24]⟩
    calc cs = cs.take 8 ++ cs.drop 8 := (List.take_append_drop 8 cs).symm
      _ = cs.take 8 ++ ((cs.drop 8).take 8 ++ (cs.drop 8).drop 8) :=
        congrArg (fun t => cs.take 8 ++ t) (List.take_append_drop 8 (cs.drop 8)).symm
      _ = cs.take 8 ++ ((cs.drop 8).take 8 ++ (cs.drop 16).take 8) := by
        rw [h3eq]

/-- C4 witness: a conversion failure in the third group, with the first two
groups decoded, behaves as if the third group were the sentinel. -/
theorem decode_skips_failed_groups_witness :
    decodeWire ("07000900".toList ++ ("12001600".toList ++ "GGGGGGGG".toList)) =
      decodeWire ("07000900".toList ++ ("12001600".toList ++ sentinel)) :=
  (decode_skips_failed_groups "07000900".toList "12001600".toList "GGGGGGGG".toList
    (by decide) (by decide) (by decide)).2.2.1 (by decide)

/-- C4 counterexample: the group `"+1000000"` contains the non-hex character
`+` yet is not skipped: Python `int(_, 16)` tolerates a sign, so the group
decodes to `"01:00-00:00"` instead of contributing nothing. -/
theorem decode_accepts_signed_group :
    ('+' ∈ "+1000000".toList) ∧ hexVal? '+' = none ∧
    decodeWire ("+1000000".toList ++ ("00000000".toList ++ "00000000".toList)) =
      "01:00-00:00".toList ∧
    "01:00-00:00".toList ≠ (['0'] : List Char) :=
  ⟨by decide, rfl, rfl, by decide⟩

/-- C1 amended: for every slot list of at most 3 valid slots none of which
is the all-zero slot, the canonical display string parses back to the slots,
encoding then decoding reproduces the display string, and the text entity
updated with the encoded wire shows that display as available.  (The
all-zero slot must be excluded: its group is the sentinel, so its display
round-trips to `"0"`, see the counterexample.) -/
theorem parse_encode_decode_roundtrip (slots : List Slot)
    (h1 : slots.length ≤ 3) (h2 : ∀ s ∈ slots, validSlot s)
    (h3 : ∀ s ∈ slots, s ≠ ((0 : Int), (0 : Int), (0 : Int), (0 : Int))) :
    parse_display_string_to_slots (some (formatSlots slots)) = .ok slots ∧
    decodeWire (encode_timeslots_from_list slots) = formatSlots slots ∧
    (parse_display_string_to_slots (some (formatSlots slots))).map
      (fun l => decodeWire (encode_timeslots_from_list l)) = .ok (formatSlots slots) ∧
    text_update_from_latest_data (.ostr (encode_timeslots_from_list slots)) =
      (some (formatSlots slots), true) := by
  have hp := parse_formatSlots h1 h2
  have hd := decodeWire_encode h1 h2 h3
  refine ⟨hp, hd, ?_, ?_⟩
  · rw [hp, Except.map, hd]
  · simp only [text_update_from_latest_data]
    rw [if_pos (encode_length slots), hd]

/-- C1 witness: the round trip at a concrete two-slot display. -/
theorem parse_encode_decode_roundtrip_witness :
    (parse_display_string_to_slots
        (some (formatSlots [((7 : Int), 0, 9, 30), ((18 : Int), 0, 22, 0)]))).map
      (fun l => decodeWire (encode_timeslots_from_list l)) =
      .ok (formatSlots [((7 : Int), 0, 9, 30), ((18 : Int), 0, 22, 0)]) :=
  (parse_encode_decode_roundtrip [(7, 0, 9, 30), (18, 0, 22, 0)]
    (by decide) (by decide) (by decide)).2.2.1

/-- C1 counterexample: `"00:00-00:00"` is a well-formed display string (one
slot, hours and minutes in range) but parse, encode, decode returns `"0"`,
because the all-zero group is the sentinel and is skipped. -/
theorem roundtrip_fails_on_zero_slot :
    formatSlots [((0 : Int), 0, 0, 0)] = "00:00-00:00".toList ∧
    validSlot ((0 : Int), 0, 0, 0) ∧
    [((0 : Int), 0, 0, 0)].length ≤ 3 ∧
    (parse_display_string_to_slots (some "00:00-00:00".toList)).map
      (fun l => decodeWire (encode_timeslots_from_list l)) = .ok ['0'] ∧
    (['0'] : List Char) ≠ "00:00-00:00".toList :=
  ⟨rfl, by decide, by decide, rfl, by decide⟩

/-- C9: the sensor transform table computes Fahrenheit-to-Celsius
`(raw - 32) * 5 / 9` for `Tank_temperature` (raw 100 displays as 340/9,
i.e. 37.77... degrees), `int(raw, 16) / 10` for `reserved_data1` (raw "19"
displays as 2.5), and passes every other key through unchanged with
availability given by presence. -/
theorem sensor_transform_values :
    (∀ q : ℚ, sensor_update_from_latest_data "Tank_temperature" (.snum q) =
      .ok (.snum ((q - 32) * 5 / 9), true)) ∧
    sensor_update_from_latest_data "Tank_temperature" (.snum 100) =
      .ok (.snum (340 / 9), true) ∧
    (∀ cs n, pyIntHex cs = some n →
      sensor_update_from_latest_data "reserved_data1" (.sstr cs) =
        .ok (.snum ((n : ℚ) / 10), true)) ∧
    sensor_update_from_latest_data "reserved_data1" (.sstr "19".toList) =
      .ok (.snum (5 / 2), true) ∧
    (∀ key v, key ≠ "Tank_temperature" → key ≠ "reserved_data1" →
      sensor_update_from_latest_data key v = .ok (v, svalPresent v)) := by
  have s1other : ∀ (key : String) (raw : SVal), key ≠ "Tank_temperature" →
      sensor_step1 key raw = .ok raw := by
    intro key raw h
    unfold sensor_step1
    rw [if_neg (fun hc => h hc.1)]
  have s2other : ∀ (key : String) (v : SVal), key ≠ "reserved_data1" →
      sensor_step2 key v = .ok v := by
    intro key v h
    unfold sensor_step2
    rw [if_neg (fun hc => h hc.1)]
  have c1 : ∀ q : ℚ, sensor_update_from_latest_data "Tank_temperature" (.snum q) =
      .ok (.snum ((q - 32) * 5 / 9), true) := fun q => rfl
  have c3 : ∀ cs n, pyIntHex cs = some n →
      sensor_update_from_latest_data "reserved_data1" (.sstr cs) =
        .ok (.snum ((n : ℚ) / 10), true) := by
    intro cs n hx
    have h2 : sensor_step2 "reserved_data1" (.sstr cs) = .ok (.snum ((n : ℚ) / 10)) := by
      unfold sensor_step2
      rw [if_pos ⟨rfl, by intro h; cases h⟩]
      show (match pyIntHex cs with
        | some n => Except.ok (SVal.snum ((n : ℚ) / 10))
        | none => Except.error PyErr.valueErr) = _
      rw [hx]
    simp only [sensor_update_from_latest_data,
      s1other "reserved_data1" (.sstr cs) (by decide), h2]
    rfl
  refine ⟨c1, ?_, c3, ?_, ?_⟩
  · have h := c1 100
    have he : ((100 : ℚ) - 32) * 5 / 9 = 340 / 9 := by norm_num
    rw [he] at h
    exact h
  · have h := c3 "19".toList 25 (by decide)
    have he : (((25 : Int) : ℚ)) / 10 = 5 / 2 := by norm_num
    rw [he] at h
    exact h
  · intro key v hk1 hk2
    simp only [sensor_update_from_latest_data, s1other key v hk1, s2other key v hk2]

/-- C9 witness: the pressure transform at a concrete hex string. -/
theorem sensor_transform_values_witness :
    sensor_update_from_latest_data "reserved_data1" (.sstr "FF".toList) =
      .ok (.snum (((255 : Int) : ℚ) / 10), true) :=
  sensor_transform_values.2.2.1 "FF".toList 255 (by decide)

/-- C8 counterexample: a malformed raw value under a transform makes the
sensor's `update_from_latest_data` raise (a type error for a string tank
temperature, a conversion error for a non-hex pressure string) rather than
surface the attribute as unavailable. -/
theorem sensor_transform_failure_raises :
    sensor_update_from_latest_data "Tank_temperature" (.sstr "abc".toList) =
      .error .typeErr ∧
    sensor_update_from_latest_data "reserved_data1" (.sstr "xyz".toList) =
      .error .valueErr :=
  ⟨rfl, rfl⟩

/-- C8 amended: an absent raw value yields native value `None` with
availability `False` for every key; a present but malformed raw value under
a transform raises out of the update (type error for a string tank
temperature or a numeric pressure value, conversion error for a non-hex
pressure string). -/
theorem sensor_update_malformed (q : ℚ) (cs : List Char)
    (hbad : pyIntHex cs = none) :
    (∀ key, sensor_update_from_latest_data key .snone = .ok (.snone, false)) ∧
    sensor_update_from_latest_data "Tank_temperature" (.sstr "abc".toList) =
      .error .typeErr ∧
    sensor_update_from_latest_data "reserved_data1" (.sstr cs) = .error .valueErr ∧
    sensor_update_from_latest_data "reserved_data1" (.snum q) = .error .typeErr := by
  refine ⟨?_, rfl, ?_, rfl⟩
  · intro key
    have h1 : sensor_step1 key .snone = .ok .snone := by
      unfold sensor_step1
      rw [if_neg (fun hc => hc.2 rfl)]
    have h2 : sensor_step2 key .snone = .ok .snone := by
      unfold sensor_step2
      rw [if_neg (fun hc => hc.2 rfl)]
    simp only [sensor_update_from_latest_data, h1, h2]
    rfl
  · have h2 : sensor_step2 "reserved_data1" (.sstr cs) = .error .valueErr := by
      unfold sensor_step2
      rw [if_pos ⟨rfl, by intro h; cases h⟩]
      show (match pyIntHex cs with
        | some n => Except.ok (SVal.snum ((n : ℚ) / 10))
        | none => Except.error PyErr.valueErr) = _
      rw [hbad]
    have h1 : sensor_step1 "reserved_data1" (.sstr cs) = .ok (.sstr cs) := by
      unfold sensor_step1
      rw [if_neg (fun hc => absurd hc.1 (by decide))]
    simp only [sensor_update_from_latest_data, h1, h2]

/-- C8 witness: the amended theorem at a concrete non-hex pressure string. -/
theorem sensor_update_malformed_witness :
    sensor_update_from_latest_data "reserved_data1" (.sstr "zz".toList) =
      .error .valueErr :=
  (sensor_update_malformed 1 "zz".toList (by decide)).2.2.1

/-- C10: the decode path applies no range check: the wire starting with the
group `FF000000` decodes to the available display `"255:00-00:00"`, whose
hour field 255 exceeds 23 and is rendered with three digits; that display is
itself rejected by the parser's range check, so decode output does not
always satisfy the slot invariants. -/
theorem decode_no_range_check :
    decodeWire "FF0000000000000000000000".toList = "255:00-00:00".toList ∧
    text_update_from_latest_data (.ostr "FF0000000000000000000000".toList) =
      (some "255:00-00:00".toList, true) ∧
    parse_display_string_to_slots (some "255:00-00:00".toList) =
      .error (msgRange "255:00-00:00".toList) :=
  ⟨rfl, rfl, rfl⟩
